import Mathlib

/-!
# Verification of the live-folder reconciliation engine

A shallow embedding, in Lean 4, of the browser-extension code that keeps a
tab group (Chrome) or a bookmark folder (Firefox) in sync with the user's
GitHub pull-request list.  The embedding translates the TypeScript sources
(`tab-group-handler.ts`, `live-folder.ts`, `github-handler.ts`,
`config-handler.ts`) into pure Lean functions over an explicit browser state.
Asynchronous browser calls become state transitions; the environment
(page loads of newly created tabs) is a parameter `resolve : String → String`
giving the URL a created tab has settled on after loading.  The model elides
tab ordering (indices): no verified property concerns tab order, and the
source's positioning step re-groups any tab the move knocked loose, so its
net effect on membership is identity.
-/

/-- `PullRequest` record from `github-handler.ts`. -/
structure PullRequest where
  name : String
  url : String
  number : Nat
  repository_name : String
deriving DecidableEq

/-- `isPre p s`: is `p` a leading segment of `s` (char lists)? -/
def isPre : List Char → List Char → Bool
  | [], _ => true
  | _ :: _, [] => false
  | p :: ps, c :: cs => p == c && isPre ps cs

/-- `hasSub s p`: does `s` contain `p` as a contiguous segment?
Mirrors JavaScript `s.includes(p)`. -/
def hasSub : List Char → List Char → Bool
  | [], p => p.isEmpty
  | c :: rest, p => isPre p (c :: rest) || hasSub rest p

/-- JavaScript `s.includes(pat)`. -/
def jsIncludes (s pat : String) : Bool := hasSub s.data pat.data

/-- The PR-URL pattern test used throughout `tab-group-handler.ts`:
`url.includes("github.com") && url.includes("/pull/")`. -/
def isPrUrl (url : String) : Bool :=
  jsIncludes url "github.com" && jsIncludes url "/pull/"

/-- JavaScript `GetSubstitution` for a regular expression with no capture
groups: scan the replacement text and expand `$$` (a dollar sign), `$&`
(the matched text), `$` followed by a backquote (code 96, the portion of
the subject before the match) and `$` followed by an apostrophe (code 39,
the portion after the match); every other `$` sequence — including `$1`
and `$<`, since the pattern has no groups — stays literal. -/
def expandRepl (matched before after : List Char) : List Char → List Char
  | [] => []
  | c :: rest =>
    if c = '$' then
      match rest with
      | [] => [c]
      | d :: rest2 =>
        if d = '$' then '$' :: expandRepl matched before after rest2
        else if d = '&' then matched ++ expandRepl matched before after rest2
        else if d = Char.ofNat 96 then before ++ expandRepl matched before after rest2
        else if d = Char.ofNat 39 then after ++ expandRepl matched before after rest2
        else c :: d :: expandRepl matched before after rest2
    else c :: expandRepl matched before after rest

/-- Fueled worker for leftmost, non-overlapping replace-all of a literal
pattern, the semantics of JavaScript `s.replace(/lit/g, rep)`: at each
match the replacement text is passed through `GetSubstitution`
(`expandRepl`), whose `$`-backquote and `$`-apostrophe patterns see the
portions of the original subject before (`pre`) and after the match.
The fuel is an upper bound on the length of `s` so the definition is
structural (and hence evaluates inside the kernel). -/
def replaceAllAux (p r : List Char) : Nat → List Char → List Char → List Char
  | _, _, [] => []
  | 0, _, s => s
  | Nat.succ fuel, pre, c :: rest =>
    if isPre p (c :: rest) && !p.isEmpty then
      expandRepl p pre (List.drop (p.length - 1) rest) r ++
        replaceAllAux p r fuel (pre ++ p) (List.drop (p.length - 1) rest)
    else
      c :: replaceAllAux p r fuel (pre ++ [c]) rest

/-- Replace every (leftmost, non-overlapping) occurrence of `p` in `s` by
the `GetSubstitution` expansion of `r`: JavaScript `s.replace(/p/g, r)`
for a literal pattern `p`. -/
def repAll (p r s : List Char) : List Char := replaceAllAux p r s.length [] s

/-- JavaScript `s.replace(/pat/g, rep)` at the `String` level. -/
def jsReplaceAll (s pat rep : String) : String :=
  String.mk (repAll pat.data rep.data s.data)

/-- `ConfigHandler.formatPrName` (`config-handler.ts`):
`format.replace(/%repository%/g, pr.repository_name).replace(/%name%/g,
pr.name).replace(/%number%/g, pr.number.toString())`. -/
def formatPrName (format : String) (pr : PullRequest) : String :=
  jsReplaceAll
    (jsReplaceAll (jsReplaceAll format "%repository%" pr.repository_name)
      "%name%" pr.name)
    "%number%" (toString pr.number)

/-! ## Browser state model (tabs and tab groups, single current window) -/

/-- One browser tab.  `groupId = -1` models `chrome.tabGroups.TAB_GROUP_ID_NONE`
(an ungrouped tab); `url = ""` models a tab whose URL is unset/undefined. -/
structure Tab where
  id : Nat
  url : String
  groupId : Int
deriving DecidableEq

/-- One tab group, as in `chrome.tabGroups`. -/
structure TabGroup where
  id : Int
  title : String
  color : String
  collapsed : Bool
deriving DecidableEq

/-- The browser: the current window's tabs and all tab groups, with fresh-id
counters for `chrome.tabs.create` and `chrome.tabs.group`. -/
structure Browser where
  tabs : List Tab
  groups : List TabGroup
  nextTabId : Nat
  nextGroupId : Int
deriving DecidableEq

/-- `chrome.tabs.query({ groupId })`. -/
def tabsQueryGroup (b : Browser) (gid : Int) : List Tab :=
  b.tabs.filter (fun t => t.groupId == gid)

/-- `chrome.tabs.create({ url })`: the new (ungrouped) tab and the new state.
The stored URL is the URL the tab has settled on; for a PR tab the caller
passes `resolve requestedUrl`, for an `about:blank` placeholder the literal. -/
def tabsCreate (b : Browser) (url : String) : Tab × Browser :=
  (⟨b.nextTabId, url, -1⟩,
   { b with tabs := b.tabs ++ [⟨b.nextTabId, url, -1⟩],
            nextTabId := b.nextTabId + 1 })

/-- `chrome.tabs.remove(tabId)`. -/
def tabsRemove (b : Browser) (tid : Nat) : Browser :=
  { b with tabs := b.tabs.filter (fun t => !(t.id == tid)) }

/-- `chrome.tabs.group({ tabIds: [tid], groupId })` for an existing group. -/
def tabsGroupOne (b : Browser) (tid : Nat) (gid : Int) : Browser :=
  { b with tabs := b.tabs.map (fun t => if t.id == tid then { t with groupId := gid } else t) }

/-- `chrome.tabGroups.get(groupId)`; `none` models the thrown error for a
group that no longer exists (a stale container handle). -/
def tabGroupsGet (b : Browser) (gid : Int) : Option TabGroup :=
  b.groups.find? (fun g => g.id == gid)

/-- `chrome.tabGroups.update(groupId, fields)`; `f` applies the field dict. -/
def tabGroupsUpdate (b : Browser) (gid : Int) (f : TabGroup → TabGroup) : Browser :=
  { b with groups := b.groups.map (fun g => if g.id == gid then f g else g) }

/-- `TabGroupHandler.positionGroupAfterPinnedTabs`: moves the group's tabs to
sit right after the pinned tabs and re-groups any tab the move knocked loose.
The model has no tab indices, and the source's re-group loop restores the
membership the move disturbed, so the net effect on modelled state is
identity. -/
def positionGroupAfterPinnedTabs (b : Browser) (_gid : Int) : Browser := b

/-- Mutable fields of `TabGroupHandler` touched by the embedded methods. -/
structure HandlerState where
  currentGroupId : Option Int
  baseTitle : String
  resetTitleTimer : Option Nat
  listenerSetup : Bool
  groupListenerSetup : Bool
deriving DecidableEq

/-- Ledger of `setTimeout`/`clearTimeout` activity, to state the
transient-title timer claims.  `scheduled` records `(timerId, delayMs)`. -/
structure TimerLog where
  nextTimerId : Nat
  cancelled : List Nat
  scheduled : List (Nat × Nat)
deriving DecidableEq

/-- `TabGroupHandler._resetTitle`: cancel any pending revert timer and write
the stored base title back onto the current group. -/
def resetTitle (st : HandlerState) (b : Browser) (tl : TimerLog) :
    Browser × HandlerState × TimerLog :=
  match st.currentGroupId with
  | none => (b, st, tl)
  | some gid =>
    if st.baseTitle == "" then (b, st, tl)
    else
      let tl1 := match st.resetTitleTimer with
        | some tid => { tl with cancelled := tl.cancelled ++ [tid] }
        | none => tl
      let st1 := { st with resetTitleTimer := none }
      (tabGroupsUpdate b gid (fun g => { g with title := st.baseTitle }), st1, tl1)

/-- Firing the pending 30-second revert timer runs `_resetTitle`
(the body of the `setTimeout` callback in `syncTabs`). -/
def fireResetTitleTimer (st : HandlerState) (b : Browser) (tl : TimerLog) :
    Browser × HandlerState × TimerLog :=
  resetTitle st b tl

/-- The add-or-update loop of `syncTabs` (`for (const pr of pullRequests)`),
lines 133-199 of `tab-group-handler.ts`.  `snap` is the URL list of the
snapshot `tabs` taken before the loop (the `existingUrls` map keys);
`processed` accumulates `processedUrls`.  A URL already present is only
marked processed; otherwise a tab is created, its settled URL
(`_waitForTabUrl`) is checked against the PR pattern, and on failure the tab
is removed and the URL is not marked processed (`continue`); on success the
tab is grouped and the URL marked processed. -/
def addTabsLoop (resolve : String → String) (gid : Int) (snap : List String) :
    List PullRequest → Browser → List String → Browser × List String
  | [], b, ps => (b, ps)
  | pr :: rest, b, ps =>
    if snap.contains pr.url then
      addTabsLoop resolve gid snap rest b (ps ++ [pr.url])
    else
      let created := tabsCreate b (resolve pr.url)
      if isPrUrl (resolve pr.url) then
        addTabsLoop resolve gid snap rest
          (tabsGroupOne created.2 created.1.id gid) (ps ++ [pr.url])
      else
        addTabsLoop resolve gid snap rest (tabsRemove created.2 created.1.id) ps

/-- Result record of the embedded `syncTabs`. -/
structure SyncTabsResult where
  ok : Bool
  b : Browser
  st : HandlerState
  tl : TimerLog
deriving DecidableEq

/-- Stray-absorption step of `syncTabs`: every ungrouped tab whose URL is
one of the desired PR URLs is grouped back into the group. -/
def absorbStrays (b : Browser) (gid : Int) (prUrls : List String) : Browser :=
  let ungroupedPrTabs := b.tabs.filter (fun t =>
    t.groupId == -1 && !(t.url == "") && prUrls.contains t.url)
  ungroupedPrTabs.foldl (fun acc t => tabsGroupOne acc t.id gid) b

/-- `for (const tab of ts) await chrome.tabs.remove(tab.id)`. -/
def removeTabs (b : Browser) (ts : List Tab) : Browser :=
  ts.foldl (fun acc t => tabsRemove acc t.id) b

/-- Non-empty-group step of `syncTabs`: if the group has no tabs left,
create one `about:blank` placeholder and group it; returns the new state
and the re-queried `remainingTabs`. -/
def ensurePlaceholder (b : Browser) (gid : Int) : Browser × List Tab :=
  let remaining0 := tabsQueryGroup b gid
  if remaining0.isEmpty then
    let ph := tabsCreate b "about:blank"
    let b5 := tabsGroupOne ph.2 ph.1.id gid
    (b5, tabsQueryGroup b5 gid)
  else (b, remaining0)

/-- The auto-collapse condition of `syncTabs`:
`remainingTabs.length === 0 || (remainingTabs.length === 1 &&
remainingTabs[0].url === "about:blank")`. -/
def collapseCheck (remaining : List Tab) : Bool :=
  remaining.isEmpty ||
    (remaining.length == 1 &&
      (match remaining with
       | t :: _ => t.url == "about:blank"
       | [] => false))

/-- Final segment of `syncTabs` (lines 263-304): read the group, and when
it is collapsed, the PR count grew, and a base title is stored, cancel any
pending revert timer, write the "(N new)" title, and schedule a 30000 ms
revert; when it is expanded with a title differing from the base title,
revert immediately.  The re-read of the group models the `try`/`catch`:
`none` is the thrown-error path. -/
def titlePolicy (gid : Int) (dLen : Nat) (previousPrCount : Int)
    (st : HandlerState) (b : Browser) (tl : TimerLog) : SyncTabsResult :=
  match tabGroupsGet b gid with
  | none => ⟨false, b, st, tl⟩
  | some tabGroup =>
    let currentPrCount : Int := dLen
    let newPrCount : Int := currentPrCount - previousPrCount
    if tabGroup.collapsed && decide (0 < newPrCount) && !(st.baseTitle == "") then
      let tl1 := match st.resetTitleTimer with
        | some tid => { tl with cancelled := tl.cancelled ++ [tid] }
        | none => tl
      let titleWithCount := st.baseTitle ++ " (" ++ toString newPrCount ++ " new)"
      let b8 := tabGroupsUpdate b gid (fun g => { g with title := titleWithCount })
      let tid := tl1.nextTimerId
      let tl2 := { tl1 with nextTimerId := tid + 1,
                            scheduled := tl1.scheduled ++ [(tid, 30000)] }
      let st2 := { st with resetTitleTimer := some tid }
      ⟨true, b8, st2, tl2⟩
    else if !tabGroup.collapsed && !(tabGroup.title == st.baseTitle) then
      let reset := resetTitle st b tl
      ⟨true, reset.1, reset.2.1, reset.2.2⟩
    else ⟨true, b, st, tl⟩

/-- The container-mutation phases of `syncTabs` between validation and the
collapse/title policy: absorb strays, snapshot, add-or-update with the
redirect guard, remove stale tabs, remove placeholders when real PRs
exist, and ensure the group is non-empty.  Returns the resulting state and
the re-queried `remainingTabs`. -/
def syncPhases (resolve : String → String) (gid : Int)
    (pullRequests : List PullRequest) (b : Browser) : Browser × List Tab :=
  let prUrls := pullRequests.map (fun pr => pr.url)
  let b1 := absorbStrays b gid prUrls
  let tabs := tabsQueryGroup b1 gid
  let snap := tabs.map (fun t => t.url)
  let stepB := addTabsLoop resolve gid snap pullRequests b1 []
  let b2 := stepB.1
  let processed := stepB.2
  let tabsToRemove := tabs.filter (fun t =>
    !(t.url == "") && !(t.url == "about:blank") && !(processed.contains t.url))
  let b3 := removeTabs b2 tabsToRemove
  let currentTabs := tabsQueryGroup b3 gid
  let b4 :=
    if 0 < pullRequests.length then
      removeTabs b3 (currentTabs.filter (fun t => t.url == "about:blank"))
    else b3
  ensurePlaceholder b4 gid

/-- `TabGroupHandler.syncTabs` (current variant, `tab-group-handler.ts`
lines 49-309), under the no-exception environment: validate the group
handle (stale handle is the distinguished `false` result), run the
container-mutation phases (`syncPhases`), position the group, auto-collapse
an empty/placeholder-only group, and apply the transient-title policy. -/
def syncTabs (resolve : String → String) (gid : Int)
    (pullRequests : List PullRequest) (previousPrCount : Int)
    (st : HandlerState) (b : Browser) (tl : TimerLog) : SyncTabsResult :=
  match tabGroupsGet b gid with
  | none => ⟨false, b, st, tl⟩
  | some _ =>
    let st1 := { st with currentGroupId := some gid }
    let phase := syncPhases resolve gid pullRequests b
    let b6 := positionGroupAfterPinnedTabs phase.1 gid
    let remaining := phase.2
    let b7 := if collapseCheck remaining then
        tabGroupsUpdate b6 gid (fun g => { g with collapsed := true })
      else b6
    titlePolicy gid pullRequests.length previousPrCount st1 b7 tl

/-- `TabGroupHandler.closeUngroupedPrTabs`: close every ungrouped tab whose
URL is one of the given PR URLs. -/
def closeUngroupedPrTabs (b : Browser) (prUrls : List String) : Browser :=
  let ungrouped := b.tabs.filter (fun t =>
    t.groupId == -1 && !(t.url == "") && prUrls.contains t.url)
  ungrouped.foldl (fun acc t => tabsRemove acc t.id) b

/-- Result of `ensureTabGroup`: the group id handed back, with the new
browser and handler state. -/
structure EnsureResult where
  gid : Int
  b : Browser
  st : HandlerState
deriving DecidableEq

/-- `TabGroupHandler.findTabGroupByTitle`: first live group carrying the
title. -/
def findTabGroupByTitle (b : Browser) (title : String) : Option TabGroup :=
  b.groups.find? (fun g => g.title == title)

/-- `TabGroupHandler.ensureTabGroup` (current variant, lines 311-388):
store the base title, look the group up by title first (updating only its
color), fall back to the stored `groupId` when no title match (updating
title and color), and only when both fail create a fresh group holding a
single `about:blank` placeholder tab, collapsed, with the configured title
and color. -/
def ensureTabGroup (b : Browser) (st : HandlerState) (title color : String)
    (groupId : Option Int) : EnsureResult :=
  let st1 := { st with baseTitle := title, listenerSetup := true,
                       groupListenerSetup := true }
  match findTabGroupByTitle b title with
  | some existingByTitle =>
    let b1 := if !(existingByTitle.color == color) then
        tabGroupsUpdate b existingByTitle.id (fun g => { g with color := color })
      else b
    ⟨existingByTitle.id, b1, { st1 with currentGroupId := some existingByTitle.id }⟩
  | none =>
    let stored :=
      match groupId with
      | some sid => if sid == -1 then none else tabGroupsGet b sid
      | none => none
    match groupId, stored with
    | some sid, some existingGroup =>
      let b1 := if !(existingGroup.title == title) || !(existingGroup.color == color) then
          tabGroupsUpdate b sid (fun g => { g with title := title, color := color })
        else b
      ⟨sid, b1, { st1 with currentGroupId := some sid }⟩
    | _, _ =>
      let created := tabsCreate b "about:blank"
      let newGroupId := b.nextGroupId
      let b1 := { created.2 with
        tabs := created.2.tabs.map (fun t =>
          if t.id == created.1.id then { t with groupId := newGroupId } else t),
        groups := created.2.groups ++ [⟨newGroupId, "", "grey", false⟩],
        nextGroupId := newGroupId + 1 }
      let b2 := tabGroupsUpdate b1 newGroupId (fun g =>
        { g with title := title, color := color, collapsed := true })
      ⟨newGroupId, b2, { st1 with currentGroupId := some newGroupId }⟩

/-! ## Concrete states used by the scenario and counterexample theorems -/

/-- Handler state with base title "PRs" and no pending timer. -/
def hst0 : HandlerState := ⟨none, "PRs", none, true, true⟩

/-- Empty timer ledger. -/
def tlog0 : TimerLog := ⟨0, [], []⟩

/-- A browser holding one live group (id 7, title "PRs", expanded) and no
tabs. -/
def brEmpty7 : Browser := ⟨[], [⟨7, "PRs", "blue", false⟩], 1, 8⟩

/-- A desired item whose URL does not match the PR pattern. -/
def prNonGh : PullRequest := ⟨"Ex", "https://example.com/x", 1, "r"⟩

/-- Desired item number `i` with a well-formed GitHub PR URL. -/
def prGh (i : Nat) : PullRequest :=
  ⟨"P", "https://github.com/o/r/pull/" ++ toString i, i, "r"⟩

/-- The identity environment: every created tab settles on its requested
URL (no redirects). -/
def resolveId : String → String := fun u => u

/-- An environment in which loading PR 1's URL redirects to the SSO login
page. -/
def resolveLogin : String → String := fun u =>
  if u == "https://github.com/o/r/pull/1" then "https://github.com/login" else u

/-- Group 7 (expanded) holding two `about:blank` placeholder tabs. -/
def brTwoBlank : Browser :=
  ⟨[⟨1, "about:blank", 7⟩, ⟨2, "about:blank", 7⟩], [⟨7, "PRs", "blue", false⟩], 3, 8⟩

/-- Group 7 (collapsed) holding two `about:blank` placeholder tabs. -/
def brTwoBlankCollapsed : Browser :=
  ⟨[⟨1, "about:blank", 7⟩, ⟨2, "about:blank", 7⟩], [⟨7, "PRs", "blue", true⟩], 3, 8⟩

/-- Group 7 (collapsed) already holding the five desired PR tabs. -/
def brFivePr : Browser :=
  ⟨[⟨1, (prGh 1).url, 7⟩, ⟨2, (prGh 2).url, 7⟩, ⟨3, (prGh 3).url, 7⟩,
    ⟨4, (prGh 4).url, 7⟩, ⟨5, (prGh 5).url, 7⟩],
   [⟨7, "PRs", "blue", true⟩], 6, 8⟩

/-- Handler state for the transient-title scenario: base title "PRs", a
prior pending revert timer (id 0). -/
def hstPending : HandlerState := ⟨some 7, "PRs", some 0, true, true⟩

/-- Timer ledger after timer 0 was handed out. -/
def tlog1 : TimerLog := ⟨1, [], []⟩

/-- C1 counterexample.  The claim states that for EVERY desired list D and
every starting contents, a successful reconcile leaves the real
(non-`about:blank`) entry URL set equal to D's URL set.  On the code this
fails: `syncTabs` admits a newly created tab only when its settled URL
matches the PR pattern (`github.com` and `/pull/`), so a desired item with
URL `https://example.com/x` is created, discarded by the redirect guard,
and absent from the final group even though the call returns `true` — the
final real URL set is empty, not `{https://example.com/x}`. -/
theorem c1_counterexample_nonpr_url :
    (syncTabs resolveId 7 [prNonGh] 0 hst0 brEmpty7 tlog0).ok = true ∧
    ((tabsQueryGroup (syncTabs resolveId 7 [prNonGh] 0 hst0 brEmpty7 tlog0).b 7).map
        (fun t => t.url)) = ["about:blank"] ∧
    ¬ prNonGh.url ∈
      ((tabsQueryGroup (syncTabs resolveId 7 [prNonGh] 0 hst0 brEmpty7 tlog0).b 7).map
        (fun t => t.url)) := by
  decide

/-- C4 counterexample.  The claim states that a successful `syncTabs` with
an empty desired list leaves EXACTLY ONE placeholder tab.  Starting from a
group that already holds two `about:blank` placeholders and syncing an
empty list, the call returns `true` and both placeholders remain (the
placeholder-removal step only runs when the desired list is non-empty). -/
theorem c4_counterexample_two_placeholders :
    (syncTabs resolveId 7 [] 0 hst0 brTwoBlankCollapsed tlog0).ok = true ∧
    ((tabsQueryGroup (syncTabs resolveId 7 [] 0 hst0 brTwoBlankCollapsed tlog0).b 7).filter
        (fun t => t.url == "about:blank")).length = 2 := by
  decide

/-- C8 counterexample.  The claim states the group is set to collapsed
whenever it ends holding no real entries (empty or placeholder-only).  The
code only collapses when the group ends empty or with EXACTLY ONE
`about:blank` tab: with two placeholders and no real entries the group is
left expanded. -/
theorem c8_counterexample_placeholders_not_collapsed :
    (syncTabs resolveId 7 [] 0 hst0 brTwoBlank tlog0).ok = true ∧
    (∀ t ∈ tabsQueryGroup (syncTabs resolveId 7 [] 0 hst0 brTwoBlank tlog0).b 7,
        t.url = "about:blank") ∧
    tabGroupsGet (syncTabs resolveId 7 [] 0 hst0 brTwoBlank tlog0).b 7 =
      some ⟨7, "PRs", "blue", false⟩ := by
  decide

/-- C5 counterexample.  The claim states a desired item whose created tab
resolves outside the PR pattern is not counted when computing the
"(N new)" title count.  The code computes the count as
`pullRequests.length - previousPrCount` before any discards are known:
with `previousPrCount = 0` and a single desired item that redirects to the
login page, the item's tab is discarded (only the placeholder remains),
yet the title still becomes "PRs (1 new)" — the discarded item was
counted. -/
theorem c5_counterexample_discard_still_counted :
    ((tabsQueryGroup (syncTabs resolveLogin 7 [prGh 1] 0 hst0 brEmpty7 tlog0).b 7).map
        (fun t => t.url)) = ["about:blank"] ∧
    tabGroupsGet (syncTabs resolveLogin 7 [prGh 1] 0 hst0 brEmpty7 tlog0).b 7 =
      some ⟨7, "PRs (1 new)", "blue", true⟩ := by
  decide

/-- C6.  With `previousPrCount = 2`, five desired items, the group
collapsed, and base title "PRs": the title becomes "PRs (3 new)"; a
30000 ms revert timer is scheduled, and starting it first cancels the
prior pending timer (id 0); firing the timer with no user expansion
reverts the title to "PRs" and clears the pending timer. -/
theorem c6_growth_transient_title :
    tabGroupsGet (syncTabs resolveId 7 [prGh 1, prGh 2, prGh 3, prGh 4, prGh 5] 2
        hstPending brFivePr tlog1).b 7 = some ⟨7, "PRs (3 new)", "blue", true⟩ ∧
    (syncTabs resolveId 7 [prGh 1, prGh 2, prGh 3, prGh 4, prGh 5] 2
        hstPending brFivePr tlog1).tl.cancelled = [0] ∧
    (syncTabs resolveId 7 [prGh 1, prGh 2, prGh 3, prGh 4, prGh 5] 2
        hstPending brFivePr tlog1).tl.scheduled = [(1, 30000)] ∧
    (syncTabs resolveId 7 [prGh 1, prGh 2, prGh 3, prGh 4, prGh 5] 2
        hstPending brFivePr tlog1).st.resetTitleTimer = some 1 ∧
    tabGroupsGet
      (fireResetTitleTimer
        (syncTabs resolveId 7 [prGh 1, prGh 2, prGh 3, prGh 4, prGh 5] 2
          hstPending brFivePr tlog1).st
        (syncTabs resolveId 7 [prGh 1, prGh 2, prGh 3, prGh 4, prGh 5] 2
          hstPending brFivePr tlog1).b
        (syncTabs resolveId 7 [prGh 1, prGh 2, prGh 3, prGh 4, prGh 5] 2
          hstPending brFivePr tlog1).tl).1 7 = some ⟨7, "PRs", "blue", true⟩ ∧
    (fireResetTitleTimer
        (syncTabs resolveId 7 [prGh 1, prGh 2, prGh 3, prGh 4, prGh 5] 2
          hstPending brFivePr tlog1).st
        (syncTabs resolveId 7 [prGh 1, prGh 2, prGh 3, prGh 4, prGh 5] 2
          hstPending brFivePr tlog1).b
        (syncTabs resolveId 7 [prGh 1, prGh 2, prGh 3, prGh 4, prGh 5] 2
          hstPending brFivePr tlog1).tl).2.1.resetTitleTimer = none := by
  decide

/-! ## Flat-folder (bookmarks) model and the item source -/

/-- One child of the bookmark folder.  `url = none` models a child folder
(bookmark folders have no URL). -/
structure Bookmark where
  id : Nat
  title : String
  url : Option String
deriving DecidableEq

/-- JavaScript truthiness of `bookmark.url` (`undefined` and `""` are
falsy). -/
def urlTruthy : Option String → Bool
  | none => false
  | some u => !(u == "")

/-- JavaScript `Map` lookup for a map built from `(url, bookmark)` entries:
with duplicate keys the LAST entry wins. -/
def lookupLastByUrl (bms : List Bookmark) (u : String) : Option Bookmark :=
  (bms.reverse).find? (fun bm => bm.url == some u)

/-- The per-PR loop of `LiveFolder._syncBookmarks`: `existing` is the
snapshot `existingBookmarks` used for the `existingUrls` map; the first
component threads the live children list (updates by id, creations
appended with fresh ids), the second accumulates `processedUrls`. -/
def syncBookmarksLoop (format : String) (existing : List Bookmark) :
    List PullRequest → List Bookmark → Nat → List String →
      List Bookmark × Nat × List String
  | [], bms, nid, ps => (bms, nid, ps)
  | pullReq :: rest, bms, nid, ps =>
    let title := formatPrName format pullReq
    match lookupLastByUrl existing pullReq.url with
    | some bm =>
      let bms1 := if !(bm.title == title) then
          bms.map (fun x => if x.id == bm.id then { x with title := title } else x)
        else bms
      syncBookmarksLoop format existing rest bms1 nid (ps ++ [pullReq.url])
    | none =>
      syncBookmarksLoop format existing rest
        (bms ++ [⟨nid, title, some pullReq.url⟩]) (nid + 1) (ps ++ [pullReq.url])

/-- `LiveFolder._syncBookmarks` (`live-folder.ts`): update/create a bookmark
per desired pull request, then remove every snapshot child whose URL is
truthy and was not processed.  `nid` supplies fresh bookmark ids. -/
def syncBookmarks (format : String) (pullRequests : List PullRequest)
    (children : List Bookmark) (nid : Nat) : List Bookmark :=
  let stepped := syncBookmarksLoop format children pullRequests children nid []
  let bms := stepped.1
  let processed := stepped.2.2
  let toRemove := children.filter (fun bm =>
    urlTruthy bm.url &&
      !(match bm.url with
        | some u => processed.contains u
        | none => false))
  bms.filter (fun bm => !(toRemove.any (fun r => r.id == bm.id)))

/-- JavaScript truthiness of an array value: an array object is never
falsy, so `if (!pullRequests)` in `syncFolder` can never fire on the
array returned by `getPullRequests`. -/
def jsFalsyArray (_ : List PullRequest) : Bool := false

/-- `GithubHandler.getPullRequests` (`github-handler.ts` lines 93-131):
re-check authentication, fetch the PR page HTML, and scrape it.  When
unauthenticated it returns `[]`; when the fetch fails (`htmlError`) or the
body is falsy it logs and returns `[]` (the `// TODO: Handle error`
branch); otherwise it returns the parsed rows.  `fetchResult` is `none`
for a failed fetch, `parse` stands for the cheerio scrape of the page. -/
def getPullRequests (isAuthenticated : Bool) (fetchResult : Option String)
    (parse : String → List PullRequest) : List PullRequest :=
  if !isAuthenticated then []
  else
    match fetchResult with
    | none => []
    | some html => if html == "" then [] else parse html

/-- The flat-folder (Firefox) slice of `LiveFolder.syncFolder`
(`live-folder.ts` lines 312-398): skip when unauthenticated, obtain the
desired items from `getPullRequests`, return early when the result is
falsy (dead code: an array is never falsy), and reconcile the folder's
children with `_syncBookmarks`.  Folder lookup/creation, the folder-title
rename, and alarm rescheduling touch no folder children and are elided. -/
def syncFolderFlat (isAuthenticated : Bool) (fetchResult : Option String)
    (parse : String → List PullRequest) (format : String)
    (children : List Bookmark) (nid : Nat) : List Bookmark :=
  if !isAuthenticated then children
  else
    let pullRequests := getPullRequests isAuthenticated fetchResult parse
    if jsFalsyArray pullRequests then children
    else syncBookmarks format pullRequests children nid

/-- An existing real bookmark entry for a tracked pull request. -/
def bmExisting : Bookmark := ⟨0, "[r] P", some "https://github.com/o/r/pull/1"⟩

/-- C7.  The claim (and spec §7) says a failed network fetch is a skipped
unit of work: the round continues but the container's existing real
entries stay unchanged.  In the code `getPullRequests` returns `[]` on a
fetch failure, and the caller's `if (!pullRequests)` guard is dead (an
array is never falsy), so the round proceeds treating the failure as an
empty desired list and `_syncBookmarks` removes every real entry: with one
existing PR bookmark and a failed fetch the folder ends empty. -/
theorem c7_fetch_failure_empties_folder :
    getPullRequests true none (fun _ => [prGh 1]) = [] ∧
    syncFolderFlat true none (fun _ => [prGh 1]) "[%repository%] %name%"
      [bmExisting] 1 = [] ∧
    [bmExisting] ≠ ([] : List Bookmark) := by
  decide

/-! ## Orchestrator concurrency model -/

/-- Progress of one invocation of the orchestrator's sync round. -/
inductive SyncPhase where
  | notStarted
  | running (pc : Nat)
  | dropped
  | finished
deriving DecidableEq

/-- Is the round currently in flight? -/
def SyncPhase.isRun : SyncPhase → Bool
  | SyncPhase.running _ => true
  | _ => false

/-- Shared state of the orchestrator with two potential round invocations
(A and B) and a log of the work segments each performed.  A log entry
`(taskB, i)` records that invocation B (if `taskB`) performed its `i`-th
awaited work segment. -/
structure OrchSystem where
  syncInProgress : Bool
  phaseA : SyncPhase
  phaseB : SyncPhase
  workLog : List (Bool × Nat)
deriving DecidableEq

/-- Initial orchestrator state: guard clear, neither invocation begun. -/
def orchInit : OrchSystem := ⟨false, SyncPhase.notStarted, SyncPhase.notStarted, []⟩

/-- Modelled from the spec: the in-flight guard of the newest
`LiveFolder.syncFolder` is not among the retrieved source files (the two
retrieved `live-folder.ts` variants predate it; the retrieved `syncTabs`
already exposes the boolean result that the guarded orchestrator consumes).
Per the spec, the round "is implemented as a boolean flag checked and set
synchronously before any suspension point and cleared in a
guaranteed-cleanup block after the round (success or failure)", and a
request arriving while a round is in flight is dropped, not queued.
`stepTask n s taskB` advances invocation B (when `taskB`) or A by one
atomic step; a round consists of the synchronous guard check-and-set,
`n` awaited work segments, and the cleanup that clears the guard. -/
def stepTask (n : Nat) (s : OrchSystem) (taskB : Bool) : OrchSystem :=
  if taskB then
    match s.phaseB with
    | SyncPhase.notStarted =>
      if s.syncInProgress then { s with phaseB := SyncPhase.dropped }
      else { s with syncInProgress := true, phaseB := SyncPhase.running 0 }
    | SyncPhase.running pc =>
      if pc < n then
        { s with workLog := s.workLog ++ [(true, pc)], phaseB := SyncPhase.running (pc + 1) }
      else { s with syncInProgress := false, phaseB := SyncPhase.finished }
    | SyncPhase.dropped => s
    | SyncPhase.finished => s
  else
    match s.phaseA with
    | SyncPhase.notStarted =>
      if s.syncInProgress then { s with phaseA := SyncPhase.dropped }
      else { s with syncInProgress := true, phaseA := SyncPhase.running 0 }
    | SyncPhase.running pc =>
      if pc < n then
        { s with workLog := s.workLog ++ [(false, pc)], phaseA := SyncPhase.running (pc + 1) }
      else { s with syncInProgress := false, phaseA := SyncPhase.finished }
    | SyncPhase.dropped => s
    | SyncPhase.finished => s

/-- Run the two-invocation system under an interleaving schedule (each
entry names the invocation that takes the next atomic step). -/
def runOrch (n : Nat) (sched : List Bool) : OrchSystem :=
  sched.foldl (stepTask n) orchInit

/-- The inductive invariant of the guarded orchestrator: the flag is set
exactly while some invocation is running, never both run, and an
invocation that has not run (not started or dropped) contributed no work. -/
def orchInv (s : OrchSystem) : Prop :=
  s.syncInProgress = (s.phaseA.isRun || s.phaseB.isRun) ∧
  ¬(s.phaseA.isRun = true ∧ s.phaseB.isRun = true) ∧
  ((s.phaseA = SyncPhase.notStarted ∨ s.phaseA = SyncPhase.dropped) →
    ∀ e ∈ s.workLog, e.1 = true) ∧
  ((s.phaseB = SyncPhase.notStarted ∨ s.phaseB = SyncPhase.dropped) →
    ∀ e ∈ s.workLog, e.1 = false)

theorem orchInv_init : orchInv orchInit := by
  refine ⟨rfl, by simp [orchInit, SyncPhase.isRun], ?_, ?_⟩ <;>
    simp [orchInit]

theorem orchInv_step (n : Nat) (s : OrchSystem) (t : Bool) (h : orchInv s) :
    orchInv (stepTask n s t) := by
  obtain ⟨h1, h2, h3, h4⟩ := h
  cases t
  · cases hA : s.phaseA with
    | notStarted =>
      have hAr : s.phaseA.isRun = false := by simp [hA, SyncPhase.isRun]
      by_cases hf : s.syncInProgress
      · have hstep : stepTask n s false = { s with phaseA := SyncPhase.dropped } := by
          simp [stepTask, hA, hf]
        have hB : s.phaseB.isRun = true := by
          rw [hAr] at h1; simpa [hf] using h1.symm
        rw [hstep]
        refine ⟨?_, ?_, ?_, ?_⟩
        · show s.syncInProgress = (SyncPhase.dropped.isRun || s.phaseB.isRun)
          rw [hf, hB]; simp [SyncPhase.isRun]
        · show ¬(SyncPhase.dropped.isRun = true ∧ s.phaseB.isRun = true)
          simp [SyncPhase.isRun]
        · intro _; exact h3 (Or.inl hA)
        · intro hc; exact h4 hc
      · have hstep : stepTask n s false =
            { s with syncInProgress := true, phaseA := SyncPhase.running 0 } := by
          simp [stepTask, hA, hf]
        have hB : s.phaseB.isRun = false := by
          rw [hAr] at h1; simpa [hf] using h1.symm
        rw [hstep]
        refine ⟨?_, ?_, ?_, ?_⟩
        · show true = ((SyncPhase.running 0).isRun || s.phaseB.isRun)
          simp [SyncPhase.isRun]
        · show ¬((SyncPhase.running 0).isRun = true ∧ s.phaseB.isRun = true)
          rw [hB]; simp
        · intro hc; cases hc <;> simp_all
        · intro hc; exact h4 hc
    | running pc =>
      have hAr : s.phaseA.isRun = true := by simp [hA, SyncPhase.isRun]
      by_cases hn : pc < n
      · have hstep : stepTask n s false =
            { s with workLog := s.workLog ++ [(false, pc)],
                     phaseA := SyncPhase.running (pc + 1) } := by
          simp [stepTask, hA, hn]
        rw [hstep]
        refine ⟨?_, ?_, ?_, ?_⟩
        · show s.syncInProgress = ((SyncPhase.running (pc + 1)).isRun || s.phaseB.isRun)
          rw [hAr] at h1; simpa [SyncPhase.isRun] using h1
        · show ¬((SyncPhase.running (pc + 1)).isRun = true ∧ s.phaseB.isRun = true)
          intro hc
          exact h2 ⟨hAr, hc.2⟩
        · intro hc; cases hc <;> simp_all
        · intro hc
          intro e he
          rcases List.mem_append.mp he with hin | hin
          · exact h4 hc e hin
          · simp at hin; simp [hin]
      · have hstep : stepTask n s false =
            { s with syncInProgress := false, phaseA := SyncPhase.finished } := by
          simp [stepTask, hA, hn]
        have hB : s.phaseB.isRun = false := by
          by_contra hc
          exact h2 ⟨hAr, by simpa using hc⟩
        rw [hstep]
        refine ⟨?_, ?_, ?_, ?_⟩
        · show false = (SyncPhase.finished.isRun || s.phaseB.isRun)
          rw [hB]; simp [SyncPhase.isRun]
        · show ¬(SyncPhase.finished.isRun = true ∧ s.phaseB.isRun = true)
          simp [SyncPhase.isRun]
        · intro hc; cases hc <;> simp_all
        · intro hc; exact h4 hc
    | dropped =>
      have hstep : stepTask n s false = s := by simp [stepTask, hA]
      rw [hstep]; exact ⟨h1, h2, h3, h4⟩
    | finished =>
      have hstep : stepTask n s false = s := by simp [stepTask, hA]
      rw [hstep]; exact ⟨h1, h2, h3, h4⟩
  · cases hB : s.phaseB with
    | notStarted =>
      have hBr : s.phaseB.isRun = false := by simp [hB, SyncPhase.isRun]
      by_cases hf : s.syncInProgress
      · have hstep : stepTask n s true = { s with phaseB := SyncPhase.dropped } := by
          simp [stepTask, hB, hf]
        have hA : s.phaseA.isRun = true := by
          rw [hBr] at h1; simpa [hf] using h1.symm
        rw [hstep]
        refine ⟨?_, ?_, ?_, ?_⟩
        · show s.syncInProgress = (s.phaseA.isRun || SyncPhase.dropped.isRun)
          rw [hf, hA]; simp [SyncPhase.isRun]
        · show ¬(s.phaseA.isRun = true ∧ SyncPhase.dropped.isRun = true)
          simp [SyncPhase.isRun]
        · intro hc; exact h3 hc
        · intro _; exact h4 (Or.inl hB)
      · have hstep : stepTask n s true =
            { s with syncInProgress := true, phaseB := SyncPhase.running 0 } := by
          simp [stepTask, hB, hf]
        have hA : s.phaseA.isRun = false := by
          rw [hBr] at h1; simpa [hf] using h1.symm
        rw [hstep]
        refine ⟨?_, ?_, ?_, ?_⟩
        · show true = (s.phaseA.isRun || (SyncPhase.running 0).isRun)
          simp [SyncPhase.isRun]
        · show ¬(s.phaseA.isRun = true ∧ (SyncPhase.running 0).isRun = true)
          rw [hA]; simp
        · intro hc; exact h3 hc
        · intro hc; cases hc <;> simp_all
    | running pc =>
      have hBr : s.phaseB.isRun = true := by simp [hB, SyncPhase.isRun]
      by_cases hn : pc < n
      · have hstep : stepTask n s true =
            { s with workLog := s.workLog ++ [(true, pc)],
                     phaseB := SyncPhase.running (pc + 1) } := by
          simp [stepTask, hB, hn]
        rw [hstep]
        refine ⟨?_, ?_, ?_, ?_⟩
        · show s.syncInProgress = (s.phaseA.isRun || (SyncPhase.running (pc + 1)).isRun)
          rw [hBr] at h1; simpa [SyncPhase.isRun] using h1
        · show ¬(s.phaseA.isRun = true ∧ (SyncPhase.running (pc + 1)).isRun = true)
          intro hc
          exact h2 ⟨hc.1, hBr⟩
        · intro hc
          intro e he
          rcases List.mem_append.mp he with hin | hin
          · exact h3 hc e hin
          · simp at hin; simp [hin]
        · intro hc; cases hc <;> simp_all
      · have hstep : stepTask n s true =
            { s with syncInProgress := false, phaseB := SyncPhase.finished } := by
          simp [stepTask, hB, hn]
        have hA : s.phaseA.isRun = false := by
          by_contra hc
          exact h2 ⟨by simpa using hc, hBr⟩
        rw [hstep]
        refine ⟨?_, ?_, ?_, ?_⟩
        · show false = (s.phaseA.isRun || SyncPhase.finished.isRun)
          rw [hA]; simp [SyncPhase.isRun]
        · show ¬(s.phaseA.isRun = true ∧ SyncPhase.finished.isRun = true)
          simp [SyncPhase.isRun]
        · intro hc; exact h3 hc
        · intro hc; cases hc <;> simp_all
    | dropped =>
      have hstep : stepTask n s true = s := by simp [stepTask, hB]
      rw [hstep]; exact ⟨h1, h2, h3, h4⟩
    | finished =>
      have hstep : stepTask n s true = s := by simp [stepTask, hB]
      rw [hstep]; exact ⟨h1, h2, h3, h4⟩

theorem orchInv_run (n : Nat) (sched : List Bool) : orchInv (runOrch n sched) := by
  rw [runOrch]
  induction sched using List.reverseRecOn with
  | nil => exact orchInv_init
  | append_singleton pre t ih =>
    rw [List.foldl_append]
    exact orchInv_step n _ t ih

/-- A dropped invocation stays dropped under any further steps. -/
theorem stepTask_keeps_droppedB (n : Nat) (s : OrchSystem) (t : Bool)
    (h : s.phaseB = SyncPhase.dropped) : (stepTask n s t).phaseB = SyncPhase.dropped := by
  cases t
  · cases hA : s.phaseA <;> simp [stepTask, hA, h] <;> split <;> simp [h]
  · simp [stepTask, h]

/-- A dropped invocation never runs later, whatever further steps occur. -/
theorem runOrch_keeps_droppedB (n : Nat) : ∀ (extra sched : List Bool),
    (runOrch n sched).phaseB = SyncPhase.dropped →
    (runOrch n (sched ++ extra)).phaseB = SyncPhase.dropped := by
  intro extra
  induction extra with
  | nil => intro sched h; simpa using h
  | cons x rest ih =>
    intro sched h
    have h1 : (runOrch n (sched ++ [x])).phaseB = SyncPhase.dropped := by
      have hx : runOrch n (sched ++ [x]) = stepTask n (runOrch n sched) x := by
        simp [runOrch, List.foldl_append]
      rw [hx]
      exact stepTask_keeps_droppedB n _ x h
    have h2 := ih (sched ++ [x]) h1
    simpa [List.append_assoc] using h2

/-- C2.  In the modelled orchestrator, for every round length and every
interleaving schedule: (1) at most one round is ever in flight; (2,3) an
invocation that ends dropped contributed no work segment to the log — it
was dropped, not queued; (4) once both invocations have exited (finished
or dropped) the guard flag is clear — it is cleared on every exit path;
(5) an invocation arriving while the other is in flight is dropped by its
very first (synchronous) step; (6) a dropped invocation stays dropped
under any continuation of the schedule. -/
theorem c2_at_most_one_round (n : Nat) (sched : List Bool) :
    ¬((runOrch n sched).phaseA.isRun = true ∧ (runOrch n sched).phaseB.isRun = true) ∧
    ((runOrch n sched).phaseA = SyncPhase.dropped →
      ∀ e ∈ (runOrch n sched).workLog, e.1 = true) ∧
    ((runOrch n sched).phaseB = SyncPhase.dropped →
      ∀ e ∈ (runOrch n sched).workLog, e.1 = false) ∧
    (((runOrch n sched).phaseA = SyncPhase.finished ∨
        (runOrch n sched).phaseA = SyncPhase.dropped) →
      ((runOrch n sched).phaseB = SyncPhase.finished ∨
        (runOrch n sched).phaseB = SyncPhase.dropped) →
      (runOrch n sched).syncInProgress = false) ∧
    ((runOrch n sched).phaseA.isRun = true →
      (runOrch n sched).phaseB = SyncPhase.notStarted →
      (runOrch n (sched ++ [true])).phaseB = SyncPhase.dropped) ∧
    ((runOrch n sched).phaseB = SyncPhase.dropped →
      ∀ extra, (runOrch n (sched ++ extra)).phaseB = SyncPhase.dropped) := by
  obtain ⟨h1, h2, h3, h4⟩ := orchInv_run n sched
  refine ⟨h2, ?_, ?_, ?_, ?_, ?_⟩
  · intro hd; exact h3 (Or.inr hd)
  · intro hd; exact h4 (Or.inr hd)
  · intro ha hb
    have hra : (runOrch n sched).phaseA.isRun = false := by
      cases ha with
      | inl hfin => simp [hfin, SyncPhase.isRun]
      | inr hdr => simp [hdr, SyncPhase.isRun]
    have hrb : (runOrch n sched).phaseB.isRun = false := by
      cases hb with
      | inl hfin => simp [hfin, SyncPhase.isRun]
      | inr hdr => simp [hdr, SyncPhase.isRun]
    rw [h1, hra, hrb]; rfl
  · intro hra hb
    have hflag : (runOrch n sched).syncInProgress = true := by
      rw [h1, hra]; rfl
    have hx : runOrch n (sched ++ [true]) = stepTask n (runOrch n sched) true := by
      simp [runOrch, List.foldl_append]
    rw [hx]
    simp [stepTask, hb, hflag]
  · intro hd extra
    exact runOrch_keeps_droppedB n extra sched hd

/-- Witness for C2 at a concrete schedule: invocation A starts its round,
invocation B arrives while A is in flight, and B is dropped, logged no
work, and stays dropped as the schedule continues. -/
theorem c2_at_most_one_round_witness :
    (runOrch 2 [false, true]).phaseA.isRun = true ∧
    (runOrch 2 [false, true]).phaseB = SyncPhase.dropped ∧
    (∀ e ∈ (runOrch 2 [false, true]).workLog, e.1 = false) ∧
    (runOrch 2 ([false, true] ++ [true, true])).phaseB = SyncPhase.dropped :=
  ⟨by decide, by decide,
   (c2_at_most_one_round 2 [false, true]).2.2.1 (by decide),
   (c2_at_most_one_round 2 [false, true]).2.2.2.2.2 (by decide) [true, true]⟩

/-! ## Basic lemmas about the browser operations -/

@[simp] theorem tabsGroupOne_groups (b : Browser) (tid : Nat) (gid : Int) :
    (tabsGroupOne b tid gid).groups = b.groups := rfl

@[simp] theorem tabsRemove_groups (b : Browser) (tid : Nat) :
    (tabsRemove b tid).groups = b.groups := rfl

@[simp] theorem tabsCreate_groups (b : Browser) (u : String) :
    (tabsCreate b u).2.groups = b.groups := rfl

@[simp] theorem tabGroupsUpdate_tabs (b : Browser) (gid : Int) (f : TabGroup → TabGroup) :
    (tabGroupsUpdate b gid f).tabs = b.tabs := rfl

@[simp] theorem positionGroup_eq (b : Browser) (gid : Int) :
    positionGroupAfterPinnedTabs b gid = b := rfl

@[simp] theorem absorbStrays_groups (b : Browser) (gid : Int) (prUrls : List String) :
    (absorbStrays b gid prUrls).groups = b.groups := by
  rw [absorbStrays]
  generalize b.tabs.filter _ = l
  induction l generalizing b with
  | nil => rfl
  | cons t rest ih => simpa using ih (tabsGroupOne b t.id gid)

@[simp] theorem removeTabs_groups (b : Browser) (ts : List Tab) :
    (removeTabs b ts).groups = b.groups := by
  induction ts generalizing b with
  | nil => rfl
  | cons t rest ih =>
    have h : removeTabs b (t :: rest) = removeTabs (tabsRemove b t.id) rest := rfl
    rw [h, ih]; rfl

@[simp] theorem addTabsLoop_groups (resolve : String → String) (gid : Int)
    (snap : List String) (pullRequests : List PullRequest) (b : Browser)
    (ps : List String) :
    (addTabsLoop resolve gid snap pullRequests b ps).1.groups = b.groups := by
  induction pullRequests generalizing b ps with
  | nil => rfl
  | cons pullReq rest ih =>
    rw [addTabsLoop]
    split
    · exact ih _ _
    · split
      · exact ih _ _
      · exact ih _ _

@[simp] theorem ensurePlaceholder_groups (b : Browser) (gid : Int) :
    (ensurePlaceholder b gid).1.groups = b.groups := by
  rw [ensurePlaceholder]
  by_cases h : (tabsQueryGroup b gid).isEmpty <;> simp [h]

/-- `find?` over an id-preserving map of the groups list. -/
theorem find?_map_idPatch (l : List TabGroup) (gid gid2 : Int)
    (p : TabGroup → TabGroup) (hp : ∀ g, (p g).id = g.id) :
    (l.map p).find? (fun g => g.id == gid2) =
      (l.find? (fun g => g.id == gid2)).map p := by
  induction l with
  | nil => rfl
  | cons g rest ih =>
    by_cases h : g.id == gid2
    · have h' : (p g).id == gid2 := by rw [hp]; exact h
      simp [List.find?, h, h']
    · have h' : ¬((p g).id == gid2) := by rw [hp]; exact h
      simp only [List.map_cons, List.find?]
      rw [Bool.of_not_eq_true h, Bool.of_not_eq_true h']
      exact ih

/-- Reading a group after `tabGroupsUpdate` with an id-preserving field
update. -/
theorem tabGroupsGet_update (b : Browser) (gid gid2 : Int)
    (f : TabGroup → TabGroup) (hf : ∀ g, (f g).id = g.id) :
    tabGroupsGet (tabGroupsUpdate b gid f) gid2 =
      (tabGroupsGet b gid2).map (fun g => if g.id == gid then f g else g) := by
  unfold tabGroupsGet tabGroupsUpdate
  exact find?_map_idPatch b.groups gid gid2 _ (fun g => by
    by_cases h : g.id == gid <;> simp [h, hf])

/-- `tabGroupsGet` only looks at the groups list. -/
theorem tabGroupsGet_congr (b b' : Browser) (gid : Int)
    (h : b'.groups = b.groups) : tabGroupsGet b' gid = tabGroupsGet b gid := by
  unfold tabGroupsGet; rw [h]

/-- `titlePolicy` succeeds whenever the group still resolves. -/
theorem titlePolicy_ok (gid : Int) (dLen : Nat) (prev : Int)
    (st : HandlerState) (b : Browser) (tl : TimerLog) (g : TabGroup)
    (hg : tabGroupsGet b gid = some g) :
    (titlePolicy gid dLen prev st b tl).ok = true := by
  unfold titlePolicy
  rw [hg]
  dsimp only
  split
  · rfl
  · split
    · rfl
    · rfl

@[simp] theorem syncPhases_groups (resolve : String → String) (gid : Int)
    (pullRequests : List PullRequest) (b : Browser) :
    (syncPhases resolve gid pullRequests b).1.groups = b.groups := by
  rw [syncPhases]
  by_cases h : 0 < pullRequests.length <;> simp [h]

/-- `syncTabs` succeeds whenever the stored handle resolves to a live
group (the only failure mode is the stale handle). -/
theorem syncTabs_ok (resolve : String → String) (gid : Int)
    (pullRequests : List PullRequest) (prev : Int) (st : HandlerState)
    (b : Browser) (tl : TimerLog) (g : TabGroup)
    (hg : tabGroupsGet b gid = some g) :
    (syncTabs resolve gid pullRequests prev st b tl).ok = true := by
  unfold syncTabs
  rw [hg]
  show (titlePolicy gid pullRequests.length prev
      { st with currentGroupId := some gid }
      (if collapseCheck (syncPhases resolve gid pullRequests b).2 then
        tabGroupsUpdate
          (positionGroupAfterPinnedTabs (syncPhases resolve gid pullRequests b).1 gid)
          gid (fun g => { g with collapsed := true })
      else positionGroupAfterPinnedTabs (syncPhases resolve gid pullRequests b).1 gid)
      tl).ok = true
  have hget : tabGroupsGet (syncPhases resolve gid pullRequests b).1 gid = some g := by
    rw [tabGroupsGet_congr b _ gid (syncPhases_groups resolve gid pullRequests b)]
    exact hg
  by_cases hc : collapseCheck (syncPhases resolve gid pullRequests b).2
  · rw [if_pos hc]
    rw [positionGroup_eq]
    have hupd := tabGroupsGet_update (syncPhases resolve gid pullRequests b).1 gid gid
      (fun g => { g with collapsed := true }) (fun g => rfl)
    rw [hget] at hupd
    exact titlePolicy_ok gid pullRequests.length prev _ _ tl _ hupd
  · rw [if_neg hc]
    rw [positionGroup_eq]
    exact titlePolicy_ok gid pullRequests.length prev _ _ tl g hget

/-- `syncTabs` fails exactly on a stale handle, and then mutates nothing. -/
theorem syncTabs_stale (resolve : String → String) (gid : Int)
    (pullRequests : List PullRequest) (prev : Int) (st : HandlerState)
    (b : Browser) (tl : TimerLog) (hg : tabGroupsGet b gid = none) :
    syncTabs resolve gid pullRequests prev st b tl = ⟨false, b, st, tl⟩ := by
  unfold syncTabs
  rw [hg]

/-! ## Orchestrator stale-container recovery -/

/-- Observable actions of one orchestrator round (for counting reconcile
invocations and recreates). -/
inductive OrchOp where
  | reconcile (gid : Int) (ok : Bool)
  | closeStrays
  | pause
  | recreate (gid : Int)
  | persistHandle (gid : Int)
  | logFailure
deriving DecidableEq

/-- Is this op an invocation of the reconciler? -/
def OrchOp.isReconcile : OrchOp → Bool
  | OrchOp.reconcile _ _ => true
  | _ => false

/-- Is this op a container recreate? -/
def OrchOp.isRecreate : OrchOp → Bool
  | OrchOp.recreate _ => true
  | _ => false

/-- Result of one orchestrator round in the recovery model. -/
structure ChromeRoundResult where
  ops : List OrchOp
  persistedGroupId : Option Int
  b : Browser
  st : HandlerState
  tl : TimerLog
deriving DecidableEq

/-- Modelled from the spec: the newest `LiveFolder.syncFolder` — the
consumer of `syncTabs`'s boolean result — is not among the retrieved
source files (the retrieved variants ignore the result and never retry).
Per spec §4.3 step 5, on a reconcile failure (stale container) the
orchestrator performs recreate-and-retry exactly once: best-effort close
stray PR tabs, pause briefly, force-recreate the container bypassing the
stored handle (searching by name via `ensureTabGroup` with no stored id),
persist the new handle, and re-invoke `reconcile` once; a second failure
is only logged.  `reconcile` here is the embedded `syncTabs`;
`interfere` models external deletion of the container between the
recreate and the retry (`id` when nothing interferes). -/
def syncFolderChromeRecovery (resolve : String → String)
    (interfere : Browser → Browser) (name color : String)
    (pullRequests : List PullRequest) (prev : Int) (st : HandlerState)
    (b : Browser) (tl : TimerLog) (storedId : Int) : ChromeRoundResult :=
  let r1 := syncTabs resolve storedId pullRequests prev st b tl
  if r1.ok then
    ⟨[OrchOp.reconcile storedId true], none, r1.b, r1.st, r1.tl⟩
  else
    let b1 := closeUngroupedPrTabs r1.b (pullRequests.map (fun pr => pr.url))
    let e := ensureTabGroup b1 r1.st name color none
    let b2 := interfere e.b
    let r2 := syncTabs resolve e.gid pullRequests prev e.st b2 r1.tl
    ⟨[OrchOp.reconcile storedId false, OrchOp.closeStrays, OrchOp.pause,
      OrchOp.recreate e.gid, OrchOp.persistHandle e.gid,
      OrchOp.reconcile e.gid r2.ok] ++
        (if r2.ok then [] else [OrchOp.logFailure]),
     some e.gid, r2.b, r2.st, r2.tl⟩

/-- C3.  With a stale stored handle, the embedded `syncTabs` reports the
distinguished failure without mutating anything, and the orchestrator
performs exactly one recreate-and-retry cycle: the round contains exactly
two reconcile invocations and exactly one recreate, the recreated handle
is persisted, the retry targets the recreated handle, and a failing retry
appends only a logged failure (no third reconcile).  With a live handle
the round reconciles once and never recreates. -/
theorem c3_recreate_and_retry_once (resolve : String → String)
    (interfere : Browser → Browser) (name color : String)
    (pullRequests : List PullRequest) (prev : Int) (st : HandlerState)
    (b : Browser) (tl : TimerLog) (storedId : Int) :
    (tabGroupsGet b storedId = none →
      syncTabs resolve storedId pullRequests prev st b tl = ⟨false, b, st, tl⟩ ∧
      ((syncFolderChromeRecovery resolve interfere name color pullRequests prev
          st b tl storedId).ops.filter OrchOp.isReconcile).length = 2 ∧
      ((syncFolderChromeRecovery resolve interfere name color pullRequests prev
          st b tl storedId).ops.filter OrchOp.isRecreate).length = 1 ∧
      (∃ gNew ok2,
        (syncFolderChromeRecovery resolve interfere name color pullRequests prev
          st b tl storedId).persistedGroupId = some gNew ∧
        (syncFolderChromeRecovery resolve interfere name color pullRequests prev
          st b tl storedId).ops =
          [OrchOp.reconcile storedId false, OrchOp.closeStrays, OrchOp.pause,
           OrchOp.recreate gNew, OrchOp.persistHandle gNew,
           OrchOp.reconcile gNew ok2] ++
            (if ok2 then [] else [OrchOp.logFailure]))) ∧
    (∀ g, tabGroupsGet b storedId = some g →
      (syncFolderChromeRecovery resolve interfere name color pullRequests prev
          st b tl storedId).ops = [OrchOp.reconcile storedId true] ∧
      (syncFolderChromeRecovery resolve interfere name color pullRequests prev
          st b tl storedId).persistedGroupId = none) := by
  constructor
  · intro hstale
    have hr1 := syncTabs_stale resolve storedId pullRequests prev st b tl hstale
    refine ⟨hr1, ?_, ?_, ?_⟩
    · rw [syncFolderChromeRecovery, hr1]
      dsimp only
      by_cases h2 : (syncTabs resolve
          (ensureTabGroup (closeUngroupedPrTabs b (pullRequests.map (fun pr => pr.url)))
            st name color none).gid pullRequests prev
          (ensureTabGroup (closeUngroupedPrTabs b (pullRequests.map (fun pr => pr.url)))
            st name color none).st
          (interfere (ensureTabGroup (closeUngroupedPrTabs b
            (pullRequests.map (fun pr => pr.url))) st name color none).b) tl).ok <;>
        simp [h2, OrchOp.isReconcile, List.filter]
    · rw [syncFolderChromeRecovery, hr1]
      dsimp only
      by_cases h2 : (syncTabs resolve
          (ensureTabGroup (closeUngroupedPrTabs b (pullRequests.map (fun pr => pr.url)))
            st name color none).gid pullRequests prev
          (ensureTabGroup (closeUngroupedPrTabs b (pullRequests.map (fun pr => pr.url)))
            st name color none).st
          (interfere (ensureTabGroup (closeUngroupedPrTabs b
            (pullRequests.map (fun pr => pr.url))) st name color none).b) tl).ok <;>
        simp [h2, OrchOp.isRecreate, List.filter]
    · rw [syncFolderChromeRecovery, hr1]
      dsimp only
      refine ⟨(ensureTabGroup (closeUngroupedPrTabs b
          (pullRequests.map (fun pr => pr.url))) st name color none).gid,
        (syncTabs resolve
          (ensureTabGroup (closeUngroupedPrTabs b (pullRequests.map (fun pr => pr.url)))
            st name color none).gid pullRequests prev
          (ensureTabGroup (closeUngroupedPrTabs b (pullRequests.map (fun pr => pr.url)))
            st name color none).st
          (interfere (ensureTabGroup (closeUngroupedPrTabs b
            (pullRequests.map (fun pr => pr.url))) st name color none).b) tl).ok,
        ?_, ?_⟩ <;> simp
  · intro g hg
    have hok := syncTabs_ok resolve storedId pullRequests prev st b tl g hg
    rw [syncFolderChromeRecovery]
    rw [hok]
    exact ⟨rfl, rfl⟩

/-- Witness for C3: stored handle 99 is stale in `brEmpty7`, so the round
fails once, recreates (finding group 7 by title), persists, and retries
exactly once. -/
theorem c3_recreate_and_retry_once_witness :
    tabGroupsGet brEmpty7 99 = none ∧
    (syncTabs resolveId 99 [] 0 hst0 brEmpty7 tlog0 = ⟨false, brEmpty7, hst0, tlog0⟩ ∧
      ((syncFolderChromeRecovery resolveId (fun x => x) "PRs" "blue" [] 0 hst0
          brEmpty7 tlog0 99).ops.filter OrchOp.isReconcile).length = 2 ∧
      ((syncFolderChromeRecovery resolveId (fun x => x) "PRs" "blue" [] 0 hst0
          brEmpty7 tlog0 99).ops.filter OrchOp.isRecreate).length = 1 ∧
      (∃ gNew ok2,
        (syncFolderChromeRecovery resolveId (fun x => x) "PRs" "blue" [] 0 hst0
          brEmpty7 tlog0 99).persistedGroupId = some gNew ∧
        (syncFolderChromeRecovery resolveId (fun x => x) "PRs" "blue" [] 0 hst0
          brEmpty7 tlog0 99).ops =
          [OrchOp.reconcile 99 false, OrchOp.closeStrays, OrchOp.pause,
           OrchOp.recreate gNew, OrchOp.persistHandle gNew,
           OrchOp.reconcile gNew ok2] ++
            (if ok2 then [] else [OrchOp.logFailure]))) :=
  ⟨by decide,
   (c3_recreate_and_retry_once resolveId (fun x => x) "PRs" "blue" [] 0 hst0
     brEmpty7 tlog0 99).1 (by decide)⟩

/-! ## ensureTabGroup precedence -/

/-- Well-formedness of the modelled browser: distinct tab ids below the
fresh-id counter, distinct group ids below the fresh-group counter, and
tab group references below the fresh-group counter. -/
def BrowserWF (b : Browser) : Prop :=
  (b.tabs.map (fun t => t.id)).Nodup ∧
  (∀ t ∈ b.tabs, t.id < b.nextTabId) ∧
  (b.groups.map (fun g => g.id)).Nodup ∧
  (∀ g ∈ b.groups, g.id < b.nextGroupId) ∧
  (∀ t ∈ b.tabs, t.groupId < b.nextGroupId)

/-- In a list of groups with distinct ids, looking a member up by its id
finds it. -/
theorem find?_of_mem_nodupIds (l : List TabGroup)
    (hnd : (l.map (fun g => g.id)).Nodup) (g : TabGroup) (hmem : g ∈ l) :
    l.find? (fun h => h.id == g.id) = some g := by
  induction l with
  | nil => cases hmem
  | cons h rest ih =>
    rcases List.mem_cons.mp hmem with hg | hg
    · subst hg
      simp [List.find?]
    · have hne : ¬(h.id == g.id) = true := by
        intro hc
        have : h.id = g.id := by simpa using hc
        have hgin : g.id ∈ rest.map (fun x => x.id) := List.mem_map_of_mem _ hg
        rw [List.map_cons] at hnd
        exact (List.nodup_cons.mp hnd).1 (this ▸ hgin)
      rw [List.find?]
      rw [Bool.of_not_eq_true hne]
      exact ih (List.nodup_cons.mp (by rw [List.map_cons] at hnd; exact hnd)).2 hg

/-- `find?` skips a block in which nothing satisfies the predicate. -/
theorem find?_append_of_none (l1 l2 : List TabGroup) (p : TabGroup → Bool)
    (h : l1.find? p = none) : (l1 ++ l2).find? p = l2.find? p := by
  induction l1 with
  | nil => rfl
  | cons g rest ih =>
    rw [List.find?] at h
    rcases hp : p g with hf | ht
    · rw [List.cons_append, List.find?, hp]
      apply ih
      rw [hp] at h
      exact h
    · rw [hp] at h
      cases h

/-- C10.  `ensureTabGroup` precedence, on a well-formed browser:
(1) if some live group's title equals the configured name, the first such
group's id is returned, no tab is created, that group keeps its title and
only gets the configured color, every other group is untouched — and the
result is the same whatever stored `groupId` is passed in;
(2) if no group carries the title and the stored id (not -1) resolves,
the stored id is returned with title and color updated and no tab created;
(3) if no group carries the title and the stored id is absent, -1, or
stale, a fresh group is created holding exactly one `about:blank`
placeholder tab, collapsed, with the configured title and color. -/
theorem c10_ensure_tab_group_precedence (b : Browser) (st : HandlerState)
    (title color : String) (hwf : BrowserWF b) :
    (∀ g, findTabGroupByTitle b title = some g →
      (∀ stored, (ensureTabGroup b st title color stored).gid = g.id ∧
        (ensureTabGroup b st title color stored).b.tabs = b.tabs ∧
        tabGroupsGet (ensureTabGroup b st title color stored).b g.id =
          some { g with color := color } ∧
        (∀ h ∈ b.groups, ¬h.id = g.id →
          h ∈ (ensureTabGroup b st title color stored).b.groups) ∧
        ensureTabGroup b st title color stored =
          ensureTabGroup b st title color none)) ∧
    (findTabGroupByTitle b title = none →
      ∀ sid g2, ¬sid = -1 → tabGroupsGet b sid = some g2 →
        (ensureTabGroup b st title color (some sid)).gid = sid ∧
        (ensureTabGroup b st title color (some sid)).b.tabs = b.tabs ∧
        tabGroupsGet (ensureTabGroup b st title color (some sid)).b sid =
          some { g2 with title := title, color := color } ∧
        (ensureTabGroup b st title color (some sid)).b.groups.length =
          b.groups.length) ∧
    (findTabGroupByTitle b title = none →
      ∀ stored, (stored = none ∨ stored = some (-1) ∨
          (∃ sid, stored = some sid ∧ tabGroupsGet b sid = none)) →
        (ensureTabGroup b st title color stored).gid = b.nextGroupId ∧
        tabGroupsGet (ensureTabGroup b st title color stored).b b.nextGroupId =
          some ⟨b.nextGroupId, title, color, true⟩ ∧
        tabsQueryGroup (ensureTabGroup b st title color stored).b b.nextGroupId =
          [⟨b.nextTabId, "about:blank", b.nextGroupId⟩]) := by
  obtain ⟨hnd, hlt, hgnd, hglt, htg⟩ := hwf
  have hgetg : ∀ g : TabGroup, g ∈ b.groups → tabGroupsGet b g.id = some g :=
    fun g hg => find?_of_mem_nodupIds b.groups hgnd g hg
  refine ⟨?_, ?_, ?_⟩
  · intro g hfind stored
    have hmem : g ∈ b.groups := List.mem_of_find?_eq_some hfind
    have hgid : tabGroupsGet b g.id = some g := hgetg g hmem
    by_cases hcol : (g.color == color) = true
    · have hceq : g.color = color := by simpa using hcol
      refine ⟨?_, ?_, ?_, ?_, ?_⟩
      · simp [ensureTabGroup, hfind, hcol]
      · simp [ensureTabGroup, hfind, hcol]
      · simp only [ensureTabGroup, hfind, hcol, Bool.not_true, Bool.false_eq_true,
          if_false]
        rw [hgid]
        congr 1
        cases g
        simp_all
      · intro h hh _
        simpa [ensureTabGroup, hfind, hcol] using hh
      · simp [ensureTabGroup, hfind, hcol]
    · refine ⟨?_, ?_, ?_, ?_, ?_⟩
      · simp [ensureTabGroup, hfind, hcol]
      · simp [ensureTabGroup, hfind, hcol]
      · simp only [ensureTabGroup, hfind, hcol, Bool.not_false, if_true,
          Bool.not_eq_true]
        rw [tabGroupsGet_update b g.id g.id
          (fun x => { x with color := color }) (fun h => rfl), hgid]
        simp
      · intro h hh hne
        simp only [ensureTabGroup, hfind, hcol, Bool.not_false, if_true,
          Bool.not_eq_true]
        show h ∈ (tabGroupsUpdate b g.id (fun x => { x with color := color })).groups
        show h ∈ b.groups.map (fun x => if x.id == g.id then { x with color := color } else x)
        have hfix : (fun x => if x.id == g.id then { x with color := color } else x) h = h := by
          simp [hne]
        rw [← hfix]
        exact List.mem_map_of_mem _ hh
      · simp [ensureTabGroup, hfind, hcol]
  · intro hfind sid g2 hsid hget
    have hsidb : (sid == -1) = false := by simpa using hsid
    have hgidb : (g2.id == sid) = true := by simpa using List.find?_some hget
    by_cases hupd : (!(g2.title == title) || !(g2.color == color)) = true
    · refine ⟨?_, ?_, ?_, ?_⟩
      · simp [ensureTabGroup, hfind, hsidb, hget, hupd]
      · simp [ensureTabGroup, hfind, hsidb, hget, hupd]
      · simp only [ensureTabGroup, hfind, hsidb, hget, hupd, Bool.false_eq_true,
          if_false, if_true]
        rw [tabGroupsGet_update b sid sid
          (fun x => { x with title := title, color := color }) (fun h => rfl), hget]
        have hgid2 : g2.id = sid := by simpa using hgidb
        simp [hgid2]
      · simp [ensureTabGroup, hfind, hsidb, hget, hupd, tabGroupsUpdate]
    · have h1 : g2.title = title := by
        by_contra hc
        exact hupd (by simp [hc])
      have h2 : g2.color = color := by
        by_contra hc
        exact hupd (by simp [hc])
      refine ⟨?_, ?_, ?_, ?_⟩
      · simp [ensureTabGroup, hfind, hsidb, hget, hupd]
      · simp [ensureTabGroup, hfind, hsidb, hget, hupd]
      · simp only [ensureTabGroup, hfind, hsidb, hget, hupd, Bool.false_eq_true,
          if_false]
        congr 1
        cases g2
        simp_all
      · simp [ensureTabGroup, hfind, hsidb, hget, hupd]
  · intro hfind stored hcase
    have hnone : (b.groups ++ [(⟨b.nextGroupId, "", "grey", false⟩ : TabGroup)]).find?
        (fun g => g.id == b.nextGroupId) =
        some (⟨b.nextGroupId, "", "grey", false⟩ : TabGroup) := by
      rw [find?_append_of_none]
      · simp [List.find?]
      · rw [List.find?_eq_none]
        intro g hg
        have := hglt g hg
        simp
        omega
    have htabs : ∀ l : List Tab, (∀ t ∈ l, t.id < b.nextTabId) →
        (∀ t ∈ l, t.groupId < b.nextGroupId) →
        ((l ++ [(⟨b.nextTabId, "about:blank", -1⟩ : Tab)]).map (fun t =>
          if t.id == b.nextTabId then { t with groupId := b.nextGroupId } else t)).filter
            (fun t => t.groupId == b.nextGroupId) =
          [(⟨b.nextTabId, "about:blank", b.nextGroupId⟩ : Tab)] := by
      intro l
      induction l with
      | nil => intro _ _; simp
      | cons t rest ih =>
        intro hid hgrp
        have h1 : (t.id == b.nextTabId) = false := by
          have := hid t (List.mem_cons_self t rest)
          simp
          omega
        have h2 : (t.groupId == b.nextGroupId) = false := by
          have := hgrp t (List.mem_cons_self t rest)
          simp
          omega
        rw [List.cons_append, List.map_cons, List.filter_cons]
        rw [h1]
        simp only [Bool.false_eq_true, if_false]
        rw [h2]
        simp only [Bool.false_eq_true, if_false]
        exact ih (fun x hx => hid x (List.mem_cons_of_mem t hx))
          (fun x hx => hgrp x (List.mem_cons_of_mem t hx))
    have hmain : ensureTabGroup b st title color stored =
        ensureTabGroup b st title color none := by
      rcases hcase with h | h | ⟨sid, hs, hstale⟩
      · rw [h]
      · rw [h]; simp [ensureTabGroup, hfind]
      · rw [hs]; simp [ensureTabGroup, hfind, hstale]
    rw [hmain]
    refine ⟨?_, ?_, ?_⟩
    · simp [ensureTabGroup, hfind]
    · simp only [ensureTabGroup, hfind]
      rw [tabGroupsGet_update _ b.nextGroupId b.nextGroupId
        (fun g => { g with title := title, color := color, collapsed := true })
        (fun h => rfl)]
      show ((b.groups ++ [(⟨b.nextGroupId, "", "grey", false⟩ : TabGroup)]).find?
          (fun g => g.id == b.nextGroupId)).map _ = _
      rw [hnone]
      simp
    · simp only [ensureTabGroup, hfind]
      show ((((b.tabs ++ [(⟨b.nextTabId, "about:blank", -1⟩ : Tab)]).map (fun t =>
          if t.id == b.nextTabId then { t with groupId := b.nextGroupId } else t))).filter
            (fun t => t.groupId == b.nextGroupId)) = _
      exact htabs b.tabs hlt htg

instance decBrowserWF (b : Browser) : Decidable (BrowserWF b) := by
  unfold BrowserWF
  exact inferInstance

/-- Two live groups: id 3 titled "PRs" (red), id 9 titled "Other". -/
def brTwoGroups : Browser :=
  ⟨[], [⟨3, "PRs", "red", false⟩, ⟨9, "Other", "blue", true⟩], 1, 10⟩

/-- Witness for C10: the stored handle 9 resolves to a live group, yet the
title lookup wins — group 3 ("PRs") is returned with only its color
updated, and the stored handle is ignored entirely. -/
theorem c10_ensure_tab_group_precedence_witness :
    BrowserWF brTwoGroups ∧
    ((ensureTabGroup brTwoGroups hst0 "PRs" "blue" (some 9)).gid = 3 ∧
      (ensureTabGroup brTwoGroups hst0 "PRs" "blue" (some 9)).b.tabs = brTwoGroups.tabs ∧
      tabGroupsGet (ensureTabGroup brTwoGroups hst0 "PRs" "blue" (some 9)).b 3 =
        some ⟨3, "PRs", "blue", false⟩ ∧
      (∀ h ∈ brTwoGroups.groups, ¬h.id = (3 : Int) →
        h ∈ (ensureTabGroup brTwoGroups hst0 "PRs" "blue" (some 9)).b.groups) ∧
      ensureTabGroup brTwoGroups hst0 "PRs" "blue" (some 9) =
        ensureTabGroup brTwoGroups hst0 "PRs" "blue" none) :=
  ⟨by decide,
   (c10_ensure_tab_group_precedence brTwoGroups hst0 "PRs" "blue" (by decide)).1
     ⟨3, "PRs", "red", false⟩ (by decide) (some 9)⟩

/-! ## Template rendering -/

/-- A replacement text without a dollar sign expands to itself. -/
theorem expandRepl_no_dollar (m bfr aft : List Char) :
    ∀ r : List Char, ¬ '$' ∈ r → expandRepl m bfr aft r = r := by
  intro r
  induction r with
  | nil => intro _; rfl
  | cons c rest ih =>
    intro hr
    have hc : ¬ c = '$' := fun h => hr (h ▸ List.mem_cons_self c rest)
    have hrest : ¬ '$' ∈ rest := fun h => hr (List.mem_cons_of_mem c h)
    rw [expandRepl.eq_def]
    dsimp only
    rw [if_neg hc, ih hrest]

theorem replaceAllAux_nil (p r : List Char) (f : Nat) (pre : List Char) :
    replaceAllAux p r f pre [] = [] := by
  cases f <;> rfl

/-- When the replacement text holds no dollar sign, the consumed-prefix
accumulator is irrelevant. -/
theorem replaceAllAux_pre (p r : List Char) (hr : ¬ '$' ∈ r) :
    ∀ (f : Nat) (pre pre2 s : List Char),
      replaceAllAux p r f pre s = replaceAllAux p r f pre2 s := by
  intro f
  induction f with
  | zero => intro pre pre2 s; cases s <;> rfl
  | succ f ih =>
    intro pre pre2 s
    cases s with
    | nil => rfl
    | cons c rest =>
      simp only [replaceAllAux]
      by_cases hcond : (isPre p (c :: rest) && !p.isEmpty) = true
      · rw [if_pos hcond, if_pos hcond,
          expandRepl_no_dollar p pre (List.drop (p.length - 1) rest) r hr,
          expandRepl_no_dollar p pre2 (List.drop (p.length - 1) rest) r hr,
          ih (pre ++ p) (pre2 ++ p) (List.drop (p.length - 1) rest)]
      · rw [if_neg hcond, if_neg hcond, ih (pre ++ [c]) (pre2 ++ [c]) rest]

/-- `replaceAllAux` is insensitive to the fuel as long as it bounds the
length of the text. -/
theorem replaceAllAux_fuel (p r : List Char) :
    ∀ (f g : Nat) (pre s : List Char), s.length ≤ f → s.length ≤ g →
      replaceAllAux p r f pre s = replaceAllAux p r g pre s := by
  intro f
  induction f with
  | zero =>
    intro g pre s hf _
    have hs : s = [] := List.length_eq_zero.mp (Nat.le_zero.mp hf)
    subst hs
    rw [replaceAllAux_nil, replaceAllAux_nil]
  | succ f ih =>
    intro g pre s hf hg
    cases s with
    | nil => rw [replaceAllAux_nil, replaceAllAux_nil]
    | cons c rest =>
      cases g with
      | zero => exact absurd hg (by simp)
      | succ g' =>
        simp only [replaceAllAux]
        by_cases hcond : (isPre p (c :: rest) && !p.isEmpty) = true
        · rw [if_pos hcond, if_pos hcond]
          congr 1
          apply ih
          · calc (List.drop (p.length - 1) rest).length ≤ rest.length :=
                  by rw [List.length_drop]; omega
              _ ≤ f := by simpa using hf
          · calc (List.drop (p.length - 1) rest).length ≤ rest.length :=
                  by rw [List.length_drop]; omega
              _ ≤ g' := by simpa using hg
        · rw [if_neg hcond, if_neg hcond]
          congr 1
          apply ih
          · simpa using hf
          · simpa using hg

/-- A text without any occurrence of the pattern is left unchanged. -/
theorem replaceAllAux_of_not_hasSub (p r : List Char) :
    ∀ (f : Nat) (pre s : List Char), hasSub s p = false →
      replaceAllAux p r f pre s = s := by
  intro f
  induction f with
  | zero => intro pre s _; cases s <;> rfl
  | succ f ih =>
    intro pre s hs
    cases s with
    | nil => rfl
    | cons c rest =>
      rw [hasSub, Bool.or_eq_false_iff] at hs
      obtain ⟨h1, h2⟩ := hs
      simp only [replaceAllAux]
      rw [if_neg (by rw [h1]; simp)]
      rw [ih (pre ++ [c]) rest h2]

/-- `repAll` version of the no-occurrence identity. -/
theorem repAll_of_not_hasSub (p r s : List Char) (h : hasSub s p = false) :
    repAll p r s = s :=
  replaceAllAux_of_not_hasSub p r s.length [] s h

/-- An occurrence of a pattern implies its first character occurs. -/
theorem hasSub_head (hp : Char) (pt : List Char) :
    ∀ s : List Char, hasSub s (hp :: pt) = true → hp ∈ s := by
  intro s
  induction s with
  | nil => intro h; simp [hasSub, List.isEmpty] at h
  | cons c rest ih =>
    intro h
    rw [hasSub, Bool.or_eq_true] at h
    rcases h with h | h
    · rw [isPre, Bool.and_eq_true] at h
      have : hp = c := by simpa using h.1
      rw [this]
      exact List.mem_cons_self c rest
    · exact List.mem_cons_of_mem c (ih h)

/-- The pattern is a leading segment of itself followed by anything. -/
theorem isPre_append_self : ∀ (p t : List Char), isPre p (p ++ t) = true := by
  intro p
  induction p with
  | nil => intro t; rfl
  | cons c ps ih => intro t; simp [isPre, ih t]

/-- Skipping one character that cannot start an occurrence (dollar-free
replacement text). -/
theorem repAll_cons_ne (hp : Char) (pt r : List Char) (hr : ¬ '$' ∈ r)
    (c : Char) (s : List Char) (hc : ¬c = hp) :
    repAll (hp :: pt) r (c :: s) = c :: repAll (hp :: pt) r s := by
  show replaceAllAux (hp :: pt) r (s.length + 1) [] (c :: s) = _
  simp only [replaceAllAux]
  rw [if_neg]
  · rw [replaceAllAux_pre (hp :: pt) r hr s.length ([] ++ [c]) [] s]
    rfl
  · rw [isPre]
    have : (hp == c) = false := by simpa using fun h => hc h.symm
    rw [this]
    simp

/-- Skipping a whole block free of the pattern's first character
(dollar-free replacement text). -/
theorem repAll_append_left (hp : Char) (pt r : List Char) (hr : ¬ '$' ∈ r) :
    ∀ (a t : List Char), ¬hp ∈ a →
      repAll (hp :: pt) r (a ++ t) = a ++ repAll (hp :: pt) r t := by
  intro a
  induction a with
  | nil => intro t _; rfl
  | cons c rest ih =>
    intro t ha
    have hc : ¬c = hp := by
      intro hc
      exact ha (hc ▸ List.mem_cons_self c rest)
    have hrest : ¬hp ∈ rest := fun h => ha (List.mem_cons_of_mem c h)
    rw [List.cons_append, repAll_cons_ne hp pt r hr c (rest ++ t) hc, ih t hrest,
      List.cons_append]

/-- Consuming one occurrence of the pattern at the head (dollar-free
replacement text, which therefore expands to itself). -/
theorem repAll_append_pattern (hp : Char) (pt r t : List Char)
    (hr : ¬ '$' ∈ r) :
    repAll (hp :: pt) r ((hp :: pt) ++ t) = r ++ repAll (hp :: pt) r t := by
  show replaceAllAux (hp :: pt) r ((pt ++ t).length + 1) [] (hp :: (pt ++ t)) = _
  simp only [replaceAllAux]
  rw [if_pos]
  · rw [expandRepl_no_dollar (hp :: pt) []
      (List.drop ((hp :: pt).length - 1) (pt ++ t)) r hr]
    congr 1
    have hdrop : List.drop ((hp :: pt).length - 1) (pt ++ t) = t := by
      simp only [List.length_cons, Nat.add_sub_cancel]
      exact List.drop_left pt t
    rw [hdrop]
    rw [replaceAllAux_pre (hp :: pt) r hr (pt ++ t).length ([] ++ (hp :: pt)) [] t]
    exact replaceAllAux_fuel (hp :: pt) r ((pt ++ t).length) t.length [] t
      (by simp) (Nat.le_refl _)
  · rw [show hp :: (pt ++ t) = (hp :: pt) ++ t from rfl, isPre_append_self]
    simp

/-- C9 counterexample.  The claim states that every occurrence of a
placeholder is substituted by the pull request's field.  JavaScript
`String.replace` expands the replacement patterns `$$`, `$&`,
`$`-backquote and `$`-apostrophe in the replacement string: with a pull
request named `$&`, the template `x%name%y` renders back to `x%name%y`
(`$&` re-inserts the matched placeholder) instead of `x$&y`, so the
occurrence is not substituted by the name. -/
theorem c9_counterexample_dollar_patterns :
    formatPrName "x%name%y" ⟨"$&", "", 42, "core"⟩ = "x%name%y" ∧
    ¬ formatPrName "x%name%y" ⟨"$&", "", 42, "core"⟩ = "x$&y" := by
  decide

/-- C9 (amended).  Template rendering by `formatPrName`:
(a) the concrete example renders as specified;
(b) a template with no occurrence of any of the three placeholders passes
through unchanged (unknown placeholders and literal text are untouched);
(c) every occurrence of a placeholder is substituted by the field's value,
not just the first — provided the substituted name contains no dollar
sign, since `String.replace` expands `$$`, `$&`, `$`-backquote and
`$`-apostrophe in the replacement (see the counterexample): a template
holding two `%name%` occurrences separated by arbitrary placeholder-free
text renders both. -/
theorem c9_amended_template_rendering :
    (formatPrName "[%repository%] %name% #%number%" ⟨"Fix bug", "", 42, "core"⟩ =
      "[core] Fix bug #42") ∧
    (∀ t pr, hasSub t.data "%repository%".data = false →
      hasSub t.data "%name%".data = false →
      hasSub t.data "%number%".data = false →
      formatPrName t pr = t) ∧
    (∀ a b c pr,
      ¬ '%' ∈ a.data → ¬ '%' ∈ b.data → ¬ '%' ∈ c.data →
      ¬ '%' ∈ pr.name.data → ¬ '$' ∈ pr.name.data →
      hasSub (a ++ "%name%" ++ b ++ "%name%" ++ c).data "%repository%".data = false →
      formatPrName (a ++ "%name%" ++ b ++ "%name%" ++ c) pr =
        a ++ pr.name ++ b ++ pr.name ++ c) := by
  refine ⟨by decide, ?_, ?_⟩
  · intro t pr h1 h2 h3
    have e1 : jsReplaceAll t "%repository%" pr.repository_name = t := by
      apply String.ext
      exact repAll_of_not_hasSub _ _ _ h1
    have e2 : jsReplaceAll t "%name%" pr.name = t := by
      apply String.ext
      exact repAll_of_not_hasSub _ _ _ h2
    have e3 : jsReplaceAll t "%number%" (toString pr.number) = t := by
      apply String.ext
      exact repAll_of_not_hasSub _ _ _ h3
    rw [formatPrName, e1, e2, e3]
  · intro a b c pr ha hb hc hn hnd hrep
    have e1 : jsReplaceAll (a ++ "%name%" ++ b ++ "%name%" ++ c) "%repository%"
        pr.repository_name = a ++ "%name%" ++ b ++ "%name%" ++ c := by
      apply String.ext
      exact repAll_of_not_hasSub _ _ _ hrep
    have hcsub : hasSub c.data ('%' :: "name%".data) = false := by
      cases h : hasSub c.data ('%' :: "name%".data) with
      | false => rfl
      | true => exact absurd (hasSub_head '%' "name%".data c.data h) hc
    have key : repAll ('%' :: "name%".data) pr.name.data
        (a.data ++ (('%' :: "name%".data) ++ (b.data ++ (('%' :: "name%".data) ++ c.data)))) =
        a.data ++ (pr.name.data ++ (b.data ++ (pr.name.data ++ c.data))) := by
      rw [repAll_append_left '%' "name%".data pr.name.data hnd a.data _ ha]
      rw [repAll_append_pattern '%' "name%".data pr.name.data _ hnd]
      rw [repAll_append_left '%' "name%".data pr.name.data hnd b.data _ hb]
      rw [repAll_append_pattern '%' "name%".data pr.name.data _ hnd]
      rw [repAll_of_not_hasSub _ _ _ hcsub]
    have hmemL : ¬ '%' ∈ (a.data ++ (pr.name.data ++ (b.data ++ (pr.name.data ++ c.data)))) := by
      simp only [List.mem_append]
      intro h
      rcases h with h | h | h | h | h
      · exact ha h
      · exact hn h
      · exact hb h
      · exact hn h
      · exact hc h
    have hnum : hasSub (a.data ++ (pr.name.data ++ (b.data ++ (pr.name.data ++ c.data))))
        ('%' :: "number%".data) = false := by
      cases h : hasSub (a.data ++ (pr.name.data ++ (b.data ++ (pr.name.data ++ c.data))))
          ('%' :: "number%".data) with
      | false => rfl
      | true => exact absurd (hasSub_head '%' "number%".data _ h) hmemL
    rw [formatPrName, e1]
    apply String.ext
    show repAll "%number%".data (toString pr.number).data
      (repAll "%name%".data pr.name.data
        (a ++ "%name%" ++ b ++ "%name%" ++ c).data) = _
    have hT : (a ++ "%name%" ++ b ++ "%name%" ++ c).data =
        a.data ++ (('%' :: "name%".data) ++ (b.data ++ (('%' :: "name%".data) ++ c.data))) := by
      simp [String.data_append]
    rw [hT]
    have hpn : "%name%".data = '%' :: "name%".data := rfl
    rw [hpn, key]
    have hpnum : "%number%".data = '%' :: "number%".data := rfl
    rw [hpnum, repAll_of_not_hasSub _ _ _ hnum]
    simp [String.data_append]

/-- Witness for C9 (amended): the pass-through and double-substitution
parts at concrete inputs. -/
theorem c9_amended_template_rendering_witness :
    (hasSub "[%foo%] x".data "%repository%".data = false ∧
      formatPrName "[%foo%] x" ⟨"Fix bug", "", 42, "core"⟩ = "[%foo%] x") ∧
    (¬ '%' ∈ "[".data ∧ ¬ '$' ∈ "Fix bug".data ∧
      formatPrName ("[" ++ "%name%" ++ "] " ++ "%name%" ++ "!")
        ⟨"Fix bug", "", 42, "core"⟩ =
        "[" ++ "Fix bug" ++ "] " ++ "Fix bug" ++ "!") :=
  ⟨⟨by decide,
    c9_amended_template_rendering.2.1 "[%foo%] x" ⟨"Fix bug", "", 42, "core"⟩
      (by decide) (by decide) (by decide)⟩,
   ⟨by decide, by decide,
    c9_amended_template_rendering.2.2 "[" "] " "!" ⟨"Fix bug", "", 42, "core"⟩
      (by decide) (by decide) (by decide) (by decide) (by decide) (by decide)⟩⟩

/-! ## General properties of syncTabs -/

/-- Is this a real (non-placeholder) entry URL?  Per the data model, an
empty URL marks an entry without a settled URL and `about:blank` marks the
placeholder. -/
def realUrl (u : String) : Bool := !(u == "") && !(u == "about:blank")

/-- Well-formedness of the tab list alone: distinct ids below the fresh-id
counter. -/
def TabsWF (b : Browser) : Prop :=
  (b.tabs.map (fun t => t.id)).Nodup ∧ ∀ t ∈ b.tabs, t.id < b.nextTabId

instance decTabsWF (b : Browser) : Decidable (TabsWF b) := by
  unfold TabsWF
  exact inferInstance

/-- Symmetry of the boolean id comparison. -/
theorem beq_id_comm (x y : Nat) : (x == y) = (y == x) := by
  by_cases h : x = y
  · simp [h]
  · have h' : ¬y = x := fun hc => h hc.symm
    simp [h, h']

/-- `removeTabs` filters out exactly the tabs whose id occurs in the
removal list. -/
theorem removeTabs_tabs (ts : List Tab) : ∀ (b : Browser),
    (removeTabs b ts).tabs =
      b.tabs.filter (fun t => !(ts.any (fun s => s.id == t.id))) := by
  induction ts with
  | nil =>
    intro b
    show b.tabs = _
    simp
  | cons s rest ih =>
    intro b
    show (removeTabs (tabsRemove b s.id) rest).tabs = _
    rw [ih (tabsRemove b s.id)]
    show (b.tabs.filter fun t => !(t.id == s.id)).filter _ = _
    rw [List.filter_filter]
    apply List.filter_congr
    intro t _
    rw [List.any_cons, beq_id_comm s.id t.id]
    cases hA : t.id == s.id <;> cases hB : rest.any (fun x => x.id == t.id) <;> rfl

/-- The absorb step rewrites each tab by an id-membership test against the
stray list. -/
theorem foldl_groupOne_tabs (gid : Int) : ∀ (l : List Tab) (b : Browser),
    ((l.foldl (fun acc t => tabsGroupOne acc t.id gid) b)).tabs =
      b.tabs.map (fun t =>
        if l.any (fun s => s.id == t.id) then { t with groupId := gid } else t) := by
  intro l
  induction l with
  | nil =>
    intro b
    show b.tabs = _
    simp
  | cons s rest ih =>
    intro b
    show ((rest.foldl (fun acc t => tabsGroupOne acc t.id gid) (tabsGroupOne b s.id gid))).tabs = _
    rw [ih (tabsGroupOne b s.id gid)]
    show (b.tabs.map fun t => if t.id == s.id then { t with groupId := gid } else t).map _ = _
    rw [List.map_map]
    apply List.map_congr_left
    intro t _
    show (fun t => if rest.any (fun s => s.id == t.id) then { t with groupId := gid } else t)
        (if t.id == s.id then { t with groupId := gid } else t) =
      if List.any (s :: rest) (fun x => x.id == t.id) then { t with groupId := gid } else t
    rw [List.any_cons, beq_id_comm s.id t.id]
    cases hA : t.id == s.id <;>
      cases hB : rest.any (fun x => x.id == t.id) <;>
        simp [hA, hB]

@[simp] theorem resetTitle_tabs (st : HandlerState) (b : Browser) (tl : TimerLog) :
    (resetTitle st b tl).1.tabs = b.tabs := by
  unfold resetTitle
  cases st.currentGroupId with
  | none => rfl
  | some gid =>
    by_cases h : (st.baseTitle == "") = true <;> simp [h]

@[simp] theorem titlePolicy_tabs (gid : Int) (dLen : Nat) (prev : Int)
    (st : HandlerState) (b : Browser) (tl : TimerLog) :
    (titlePolicy gid dLen prev st b tl).b.tabs = b.tabs := by
  unfold titlePolicy
  cases tabGroupsGet b gid with
  | none => rfl
  | some g =>
    dsimp only
    split
    · rfl
    · split
      · simp
      · rfl

/-- A title-only, id-preserving group update does not change any group's
collapsed flag. -/
theorem collapsed_get_update (b : Browser) (gid gid2 : Int)
    (f : TabGroup → TabGroup) (hf : ∀ g, (f g).id = g.id)
    (hc : ∀ g, (f g).collapsed = g.collapsed) :
    (tabGroupsGet (tabGroupsUpdate b gid f) gid2).map (fun g => g.collapsed) =
      (tabGroupsGet b gid2).map (fun g => g.collapsed) := by
  rw [tabGroupsGet_update b gid gid2 f hf]
  cases hx : tabGroupsGet b gid2 with
  | none => rfl
  | some g2 =>
    by_cases h2 : g2.id = gid <;> simp [h2, hc]

theorem resetTitle_collapsed (st : HandlerState) (b : Browser) (tl : TimerLog)
    (gid2 : Int) :
    (tabGroupsGet (resetTitle st b tl).1 gid2).map (fun g => g.collapsed) =
      (tabGroupsGet b gid2).map (fun g => g.collapsed) := by
  unfold resetTitle
  cases st.currentGroupId with
  | none => rfl
  | some gid =>
    by_cases h : (st.baseTitle == "") = true
    · simp [h]
    · simp only [h, Bool.false_eq_true, if_false]
      exact collapsed_get_update b gid gid2 _ (fun g => rfl) (fun g => rfl)

theorem titlePolicy_collapsed (gid : Int) (dLen : Nat) (prev : Int)
    (st : HandlerState) (b : Browser) (tl : TimerLog) (gid2 : Int) :
    (tabGroupsGet (titlePolicy gid dLen prev st b tl).b gid2).map (fun g => g.collapsed) =
      (tabGroupsGet b gid2).map (fun g => g.collapsed) := by
  unfold titlePolicy
  cases hx : tabGroupsGet b gid with
  | none => rfl
  | some g =>
    dsimp only
    split
    · exact collapsed_get_update b gid gid2 _ (fun g => rfl) (fun g => rfl)
    · split
      · exact resetTitle_collapsed st b tl gid2
      · rfl

@[simp] theorem ensurePlaceholder_snd (b : Browser) (gid : Int) :
    (ensurePlaceholder b gid).2 =
      tabsQueryGroup (ensurePlaceholder b gid).1 gid := by
  unfold ensurePlaceholder
  by_cases h : (tabsQueryGroup b gid).isEmpty <;> simp [h]

@[simp] theorem syncPhases_snd (resolve : String → String) (gid : Int)
    (pullRequests : List PullRequest) (b : Browser) :
    (syncPhases resolve gid pullRequests b).2 =
      tabsQueryGroup (syncPhases resolve gid pullRequests b).1 gid := by
  unfold syncPhases
  exact ensurePlaceholder_snd _ gid

/-- `syncTabs` on a live handle: the validated round. -/
theorem syncTabs_eq_of_live (resolve : String → String) (gid : Int)
    (pullRequests : List PullRequest) (prev : Int) (st : HandlerState)
    (b : Browser) (tl : TimerLog) (g0 : TabGroup)
    (hg : tabGroupsGet b gid = some g0) :
    syncTabs resolve gid pullRequests prev st b tl =
      titlePolicy gid pullRequests.length prev { st with currentGroupId := some gid }
        (if collapseCheck (syncPhases resolve gid pullRequests b).2 then
          tabGroupsUpdate (syncPhases resolve gid pullRequests b).1 gid
            (fun g => { g with collapsed := true })
        else (syncPhases resolve gid pullRequests b).1) tl := by
  unfold syncTabs
  rw [hg]
  rfl

/-- A list holding a real entry fails the auto-collapse test. -/
theorem collapseCheck_false_of_real (l : List Tab) (t : Tab) (hmem : t ∈ l)
    (hreal : realUrl t.url = true) : collapseCheck l = false := by
  cases l with
  | nil => cases hmem
  | cons x rest =>
    cases rest with
    | nil =>
      have hx : t = x := by
        rcases List.mem_cons.mp hmem with h | h
        · exact h
        · cases h
      subst hx
      unfold collapseCheck
      rw [realUrl, Bool.and_eq_true] at hreal
      have hb : ¬t.url = "about:blank" := by simpa using hreal.2
      simp [hb]
    | cons y rest2 => simp [collapseCheck]

/-- C8 (amended).  For the current grouped-tabs `syncTabs` on a live
handle: the call succeeds; the group ends collapsed when its final tab
list is empty or a single `about:blank` placeholder (the code's
auto-collapse test); in every other case — in particular whenever a real
entry remains — the group's collapsed flag is exactly what it was before
the call: the reconciler never force-expands or force-collapses a group
holding real entries. -/
theorem c8_amended_collapse_policy (resolve : String → String) (gid : Int)
    (D : List PullRequest) (prev : Int) (st : HandlerState) (b : Browser)
    (tl : TimerLog) (g0 : TabGroup) (hg : tabGroupsGet b gid = some g0) :
    (syncTabs resolve gid D prev st b tl).ok = true ∧
    (collapseCheck (tabsQueryGroup (syncTabs resolve gid D prev st b tl).b gid) = true →
      (tabGroupsGet (syncTabs resolve gid D prev st b tl).b gid).map
        (fun g => g.collapsed) = some true) ∧
    (collapseCheck (tabsQueryGroup (syncTabs resolve gid D prev st b tl).b gid) = false →
      (tabGroupsGet (syncTabs resolve gid D prev st b tl).b gid).map
        (fun g => g.collapsed) = some g0.collapsed) ∧
    ((∃ t ∈ tabsQueryGroup (syncTabs resolve gid D prev st b tl).b gid,
        realUrl t.url = true) →
      (tabGroupsGet (syncTabs resolve gid D prev st b tl).b gid).map
        (fun g => g.collapsed) = some g0.collapsed) := by
  have heq := syncTabs_eq_of_live resolve gid D prev st b tl g0 hg
  have hget1 : tabGroupsGet (syncPhases resolve gid D b).1 gid = some g0 := by
    rw [tabGroupsGet_congr b _ gid (syncPhases_groups resolve gid D b)]
    exact hg
  have hq : tabsQueryGroup (syncTabs resolve gid D prev st b tl).b gid =
      (syncPhases resolve gid D b).2 := by
    rw [heq, syncPhases_snd]
    unfold tabsQueryGroup
    rw [titlePolicy_tabs]
    split <;> rfl
  have hg' : b.groups.find? (fun g => g.id == gid) = some g0 := hg
  have hid : (g0.id == gid) = true := by
    have h := List.find?_some hg'
    simpa using h
  refine ⟨syncTabs_ok resolve gid D prev st b tl g0 hg, ?_, ?_, ?_⟩
  · intro hcc
    rw [hq] at hcc
    rw [heq, if_pos hcc, titlePolicy_collapsed]
    rw [tabGroupsGet_update _ gid gid (fun g => { g with collapsed := true })
      (fun g => rfl), hget1]
    have hid2 : g0.id = gid := by simpa using hid
    simp [hid2]
  · intro hcc
    rw [hq] at hcc
    rw [heq, if_neg (by rw [hcc]; simp), titlePolicy_collapsed, hget1]
    rfl
  · intro hex
    obtain ⟨t, hmem, hreal⟩ := hex
    have hcc : collapseCheck ((syncPhases resolve gid D b).2) = false := by
      rw [← hq]
      exact collapseCheck_false_of_real _ t hmem hreal
    rw [heq, if_neg (by rw [hcc]; simp), titlePolicy_collapsed, hget1]
    rfl

/-- Witness for C8 (amended): a collapsed group keeps its collapsed state
when real entries remain after the sync. -/
theorem c8_amended_collapse_policy_witness :
    tabGroupsGet brFivePr 7 = some ⟨7, "PRs", "blue", true⟩ ∧
    (∃ t ∈ tabsQueryGroup (syncTabs resolveId 7 [prGh 1, prGh 2, prGh 3, prGh 4, prGh 5]
        2 hstPending brFivePr tlog1).b 7, realUrl t.url = true) ∧
    (tabGroupsGet (syncTabs resolveId 7 [prGh 1, prGh 2, prGh 3, prGh 4, prGh 5]
        2 hstPending brFivePr tlog1).b 7).map (fun g => g.collapsed) = some true :=
  ⟨by decide, by decide,
   (c8_amended_collapse_policy resolveId 7 [prGh 1, prGh 2, prGh 3, prGh 4, prGh 5]
     2 hstPending brFivePr tlog1 ⟨7, "PRs", "blue", true⟩ (by decide)).2.2.2 (by decide)⟩

@[simp] theorem removeTabs_nextTabId (ts : List Tab) : ∀ (b : Browser),
    (removeTabs b ts).nextTabId = b.nextTabId := by
  induction ts with
  | nil => intro b; rfl
  | cons s rest ih =>
    intro b
    show (removeTabs (tabsRemove b s.id) rest).nextTabId = _
    rw [ih]
    rfl

/-- The final membership query of `syncTabs` equals the `remainingTabs` of
the mutation phases (the collapse and title steps touch no tabs). -/
theorem syncTabs_query (resolve : String → String) (gid : Int)
    (D : List PullRequest) (prev : Int) (st : HandlerState) (b : Browser)
    (tl : TimerLog) (g0 : TabGroup) (hg : tabGroupsGet b gid = some g0) :
    tabsQueryGroup (syncTabs resolve gid D prev st b tl).b gid =
      (syncPhases resolve gid D b).2 := by
  rw [syncTabs_eq_of_live resolve gid D prev st b tl g0 hg, syncPhases_snd]
  unfold tabsQueryGroup
  rw [titlePolicy_tabs]
  split <;> rfl

/-- After `ensurePlaceholder` the group is never empty. -/
theorem ensurePlaceholder_ne_nil (b : Browser) (gid : Int) :
    (ensurePlaceholder b gid).2 ≠ [] := by
  unfold ensurePlaceholder
  by_cases h : (tabsQueryGroup b gid).isEmpty
  · rw [if_pos h]
    dsimp only
    apply List.ne_nil_of_mem
    show (⟨b.nextTabId, "about:blank", gid⟩ : Tab) ∈ List.filter _ _
    rw [List.mem_filter]
    refine ⟨?_, by simp⟩
    show ({ id := b.nextTabId, url := "about:blank", groupId := gid } : Tab) ∈
      (b.tabs ++ [(⟨b.nextTabId, "about:blank", -1⟩ : Tab)]).map
        (fun t => if t.id == b.nextTabId then { t with groupId := gid } else t)
    have hm : (⟨b.nextTabId, "about:blank", -1⟩ : Tab) ∈
        b.tabs ++ [(⟨b.nextTabId, "about:blank", -1⟩ : Tab)] :=
      List.mem_append_right b.tabs (List.mem_singleton_self _)
    have hmm := List.mem_map_of_mem (fun t : Tab =>
      if t.id == b.nextTabId then { t with groupId := gid } else t) hm
    have hfeq : (fun t : Tab => if t.id == b.nextTabId then { t with groupId := gid } else t)
        (⟨b.nextTabId, "about:blank", -1⟩ : Tab) =
        (⟨b.nextTabId, "about:blank", gid⟩ : Tab) := by simp
    rw [hfeq] at hmm
    exact hmm
  · rw [if_neg h]
    dsimp only
    intro hc
    apply h
    have hq : tabsQueryGroup b gid = [] := hc
    rw [hq]
    rfl

theorem syncPhases_snd_ne_nil (resolve : String → String) (gid : Int)
    (D : List PullRequest) (b : Browser) : (syncPhases resolve gid D b).2 ≠ [] := by
  unfold syncPhases
  exact ensurePlaceholder_ne_nil _ gid

/-- With no desired URLs there are no strays to absorb. -/
theorem absorbStrays_nilUrls (b : Browser) (gid : Int) : absorbStrays b gid [] = b := by
  unfold absorbStrays
  have h : b.tabs.filter (fun t => t.groupId == -1 && !(t.url == "") &&
      (([] : List String).contains t.url)) = [] := by
    rw [List.filter_eq_nil_iff]
    intro t _
    simp
  rw [h]
  rfl

/-- `syncPhases` with an empty desired list: no strays, no additions, all
real group tabs removed, then the non-empty step. -/
theorem syncPhases_nil (resolve : String → String) (gid : Int) (b : Browser) :
    syncPhases resolve gid [] b =
      ensurePlaceholder (removeTabs b ((tabsQueryGroup b gid).filter
        (fun t => !(t.url == "") && !(t.url == "about:blank") &&
          !(([] : List String).contains t.url)))) gid := by
  have h0 : syncPhases resolve gid [] b =
      ensurePlaceholder (removeTabs (absorbStrays b gid [])
        ((tabsQueryGroup (absorbStrays b gid []) gid).filter
          (fun t => !(t.url == "") && !(t.url == "about:blank") &&
            !(([] : List String).contains t.url)))) gid := rfl
  rw [h0, absorbStrays_nilUrls]

/-- Surviving a removal keeps you a member of the original query. -/
theorem query_removeTabs_sub (b : Browser) (ts : List Tab) (gid : Int) :
    ∀ t ∈ tabsQueryGroup (removeTabs b ts) gid, t ∈ tabsQueryGroup b gid := by
  intro t ht
  rw [tabsQueryGroup, List.mem_filter] at ht
  obtain ⟨htabs, hgrp⟩ := ht
  rw [removeTabs_tabs, List.mem_filter] at htabs
  rw [tabsQueryGroup, List.mem_filter]
  exact ⟨htabs.1, hgrp⟩

/-- After the empty-desired-list removal pass, no real entry survives in
the group. -/
theorem survivors_not_real (b : Browser) (gid : Int) :
    ∀ t ∈ tabsQueryGroup (removeTabs b ((tabsQueryGroup b gid).filter
      (fun t => !(t.url == "") && !(t.url == "about:blank") &&
        !(([] : List String).contains t.url)))) gid,
      realUrl t.url = false := by
  intro t ht
  rw [tabsQueryGroup, List.mem_filter] at ht
  obtain ⟨htabs, hgrp⟩ := ht
  rw [removeTabs_tabs, List.mem_filter] at htabs
  obtain ⟨hmem, hnoid⟩ := htabs
  cases hx : realUrl t.url with
  | false => rfl
  | true =>
    exfalso
    have htq : t ∈ tabsQueryGroup b gid := by
      rw [tabsQueryGroup, List.mem_filter]
      exact ⟨hmem, hgrp⟩
    have hts : t ∈ (tabsQueryGroup b gid).filter
        (fun t => !(t.url == "") && !(t.url == "about:blank") &&
          !(([] : List String).contains t.url)) := by
      rw [List.mem_filter]
      refine ⟨htq, ?_⟩
      rw [realUrl, Bool.and_eq_true] at hx
      rw [hx.1, hx.2]
      simp
    have hany : (((tabsQueryGroup b gid).filter
        (fun t => !(t.url == "") && !(t.url == "about:blank") &&
          !(([] : List String).contains t.url))).any (fun s => s.id == t.id)) = true :=
      List.any_eq_true.mpr ⟨t, hts, by simp⟩
    rw [hany] at hnoid
    simp at hnoid

/-- If every group entry is real, the removal pass empties the group. -/
theorem survivors_none_of_all_real (b : Browser) (gid : Int)
    (hreal : ∀ t ∈ tabsQueryGroup b gid, realUrl t.url = true) :
    tabsQueryGroup (removeTabs b ((tabsQueryGroup b gid).filter
      (fun t => !(t.url == "") && !(t.url == "about:blank") &&
        !(([] : List String).contains t.url)))) gid = [] := by
  rw [List.eq_nil_iff_forall_not_mem]
  intro t ht
  have h1 := survivors_not_real b gid t ht
  have h2 := hreal t (query_removeTabs_sub b _ gid t ht)
  rw [h1] at h2
  cases h2

/-- If no surviving group entry is real, everything after the non-empty
step is placeholder-like. -/
theorem ensure_mem_placeholderish (b3 : Browser) (gid : Int)
    (hn : ∀ t ∈ tabsQueryGroup b3 gid, realUrl t.url = false)
    (hwf3 : ∀ t ∈ b3.tabs, t.id < b3.nextTabId) :
    ∀ t ∈ (ensurePlaceholder b3 gid).2, t.url = "" ∨ t.url = "about:blank" := by
  unfold ensurePlaceholder
  by_cases hemp : (tabsQueryGroup b3 gid).isEmpty
  · rw [if_pos hemp]
    dsimp only
    intro t ht
    rw [tabsQueryGroup, List.mem_filter] at ht
    obtain ⟨hmem, hgrp⟩ := ht
    have hmem' : t ∈ (b3.tabs ++ [(⟨b3.nextTabId, "about:blank", -1⟩ : Tab)]).map
        (fun s => if s.id == b3.nextTabId then { s with groupId := gid } else s) := hmem
    obtain ⟨s, hs, hfs⟩ := List.mem_map.mp hmem'
    rcases List.mem_append.mp hs with hsb | hsp
    · exfalso
      have hlt : s.id < b3.nextTabId := hwf3 s hsb
      have hne : (s.id == b3.nextTabId) = false := by
        rw [beq_eq_false_iff_ne]
        omega
      have hts : t = s := by
        rw [← hfs]
        simp [hne]
      have hsq : s ∈ tabsQueryGroup b3 gid := by
        rw [tabsQueryGroup, List.mem_filter]
        refine ⟨hsb, ?_⟩
        rw [← hts]
        exact hgrp
      have hnil : tabsQueryGroup b3 gid = [] := by
        cases hx : tabsQueryGroup b3 gid with
        | nil => rfl
        | cons a l => rw [hx] at hemp; cases hemp
      rw [hnil] at hsq
      cases hsq
    · have hsph : s = ⟨b3.nextTabId, "about:blank", -1⟩ := by
        rcases List.mem_cons.mp hsp with h | h
        · exact h
        · cases h
      right
      rw [← hfs, hsph]
      simp
  · rw [if_neg hemp]
    dsimp only
    intro t ht
    have hfalse := hn t ht
    rw [realUrl] at hfalse
    by_cases hu : t.url = ""
    · exact Or.inl hu
    · right
      have h1 : (!(t.url == "")) = true := by simp [hu]
      rw [h1, Bool.true_and] at hfalse
      simpa using hfalse

/-- If the group is empty before the non-empty step, afterwards it holds
exactly one `about:blank` placeholder. -/
theorem ensure_singleton_of_empty (b3 : Browser) (gid : Int)
    (hemp : tabsQueryGroup b3 gid = [])
    (hwf3 : ∀ t ∈ b3.tabs, t.id < b3.nextTabId) :
    ((ensurePlaceholder b3 gid).2).map (fun t => t.url) = ["about:blank"] := by
  unfold ensurePlaceholder
  rw [if_pos (by rw [hemp]; rfl)]
  dsimp only
  have hq : tabsQueryGroup (tabsGroupOne (tabsCreate b3 "about:blank").2
      (tabsCreate b3 "about:blank").1.id gid) gid =
      [(⟨b3.nextTabId, "about:blank", gid⟩ : Tab)] := by
    show ((b3.tabs ++ [(⟨b3.nextTabId, "about:blank", -1⟩ : Tab)]).map
      (fun s => if s.id == b3.nextTabId then { s with groupId := gid } else s)).filter
        (fun t => t.groupId == gid) = _
    rw [List.map_append, List.filter_append]
    have h1 : ((b3.tabs.map (fun s =>
        if s.id == b3.nextTabId then { s with groupId := gid } else s)).filter
          (fun t => t.groupId == gid)) = [] := by
      rw [List.filter_eq_nil_iff]
      intro x hx
      obtain ⟨s, hs, hfs⟩ := List.mem_map.mp hx
      have hlt : s.id < b3.nextTabId := hwf3 s hs
      have hne : (s.id == b3.nextTabId) = false := by
        rw [beq_eq_false_iff_ne]
        omega
      have hxs : x = s := by rw [← hfs]; simp [hne]
      intro hgrp
      have hsq : s ∈ tabsQueryGroup b3 gid := by
        rw [tabsQueryGroup, List.mem_filter]
        exact ⟨hs, by rw [← hxs]; exact hgrp⟩
      rw [hemp] at hsq
      cases hsq
    rw [h1]
    simp
  rw [hq]
  rfl

/-- C4 (amended).  For the current grouped-tabs `syncTabs` on a live
handle: the call succeeds and the group ends with at least one tab.  When
the desired list is empty, every remaining tab is placeholder-like (empty
URL or `about:blank`); and when additionally every tab the group held was
a real entry, the group ends with exactly one `about:blank` placeholder.
(The literal claim — exactly one placeholder for every start state —
fails when several placeholders pre-exist, see the counterexample.) -/
theorem c4_amended_nonempty_invariant (resolve : String → String) (gid : Int)
    (D : List PullRequest) (prev : Int) (st : HandlerState) (b : Browser)
    (tl : TimerLog) (g0 : TabGroup) (hwf : TabsWF b)
    (hg : tabGroupsGet b gid = some g0) :
    (syncTabs resolve gid D prev st b tl).ok = true ∧
    tabsQueryGroup (syncTabs resolve gid D prev st b tl).b gid ≠ [] ∧
    (D = [] → ∀ t ∈ tabsQueryGroup (syncTabs resolve gid D prev st b tl).b gid,
      t.url = "" ∨ t.url = "about:blank") ∧
    (D = [] → (∀ t ∈ tabsQueryGroup b gid, realUrl t.url = true) →
      (tabsQueryGroup (syncTabs resolve gid D prev st b tl).b gid).map
        (fun t => t.url) = ["about:blank"]) := by
  have hq := syncTabs_query resolve gid D prev st b tl g0 hg
  refine ⟨syncTabs_ok resolve gid D prev st b tl g0 hg, ?_, ?_, ?_⟩
  · rw [hq]
    exact syncPhases_snd_ne_nil resolve gid D b
  · intro hD
    subst hD
    rw [hq, syncPhases_nil]
    apply ensure_mem_placeholderish
    · exact survivors_not_real b gid
    · intro t ht
      rw [removeTabs_tabs, List.mem_filter] at ht
      rw [removeTabs_nextTabId]
      exact hwf.2 t ht.1
  · intro hD hreal
    subst hD
    rw [hq, syncPhases_nil]
    apply ensure_singleton_of_empty
    · exact survivors_none_of_all_real b gid hreal
    · intro t ht
      rw [removeTabs_tabs, List.mem_filter] at ht
      rw [removeTabs_nextTabId]
      exact hwf.2 t ht.1

/-- Witness for C4 (amended): a group of five real PR tabs synced against
an empty desired list ends as exactly one `about:blank` placeholder. -/
theorem c4_amended_nonempty_invariant_witness :
    TabsWF brFivePr ∧ tabGroupsGet brFivePr 7 = some ⟨7, "PRs", "blue", true⟩ ∧
    (∀ t ∈ tabsQueryGroup brFivePr 7, realUrl t.url = true) ∧
    (tabsQueryGroup (syncTabs resolveId 7 [] 0 hst0 brFivePr tlog0).b 7).map
      (fun t => t.url) = ["about:blank"] :=
  ⟨by decide, by decide, by decide,
   (c4_amended_nonempty_invariant resolveId 7 [] 0 hst0 brFivePr tlog0
     ⟨7, "PRs", "blue", true⟩ (by decide) (by decide)).2.2.2 rfl (by decide)⟩

/-- The created tab gets grouped; nothing else changes. -/
theorem create_group_tabs (b : Browser) (u : String) (gid : Int)
    (hwf : TabsWF b) :
    (tabsGroupOne (tabsCreate b u).2 (tabsCreate b u).1.id gid).tabs =
      b.tabs ++ [(⟨b.nextTabId, u, gid⟩ : Tab)] := by
  show (b.tabs ++ [(⟨b.nextTabId, u, -1⟩ : Tab)]).map
    (fun t => if t.id == b.nextTabId then { t with groupId := gid } else t) = _
  rw [List.map_append]
  have h1 : ∀ l : List Tab, (∀ t ∈ l, t.id < b.nextTabId) →
      l.map (fun t =>
        if t.id == b.nextTabId then { t with groupId := gid } else t) = l := by
    intro l hl
    induction l with
    | nil => rfl
    | cons a l ihl =>
      have hne : (a.id == b.nextTabId) = false := by
        rw [beq_eq_false_iff_ne]
        have := hl a (List.mem_cons_self a l)
        omega
      simp only [List.map_cons, hne]
      rw [ihl (fun t ht => hl t (List.mem_cons_of_mem a ht))]
      simp
  rw [h1 b.tabs (fun t ht => hwf.2 t ht)]
  simp

/-- The created-then-removed tab leaves the tab list unchanged. -/
theorem create_remove_tabs (b : Browser) (u : String) (hwf : TabsWF b) :
    (tabsRemove (tabsCreate b u).2 (tabsCreate b u).1.id).tabs = b.tabs := by
  show (b.tabs ++ [(⟨b.nextTabId, u, -1⟩ : Tab)]).filter
    (fun t => !(t.id == b.nextTabId)) = b.tabs
  rw [List.filter_append]
  have h1 : b.tabs.filter (fun t => !(t.id == b.nextTabId)) = b.tabs := by
    rw [List.filter_eq_self]
    intro t ht
    have hne : (t.id == b.nextTabId) = false := by
      rw [beq_eq_false_iff_ne]
      have := hwf.2 t ht
      omega
    rw [hne]
    rfl
  rw [h1]
  simp

theorem tabsWF_create_group (b : Browser) (u : String) (gid : Int)
    (hwf : TabsWF b) :
    TabsWF (tabsGroupOne (tabsCreate b u).2 (tabsCreate b u).1.id gid) := by
  constructor
  · rw [create_group_tabs b u gid hwf, List.map_append]
    rw [List.nodup_append]
    refine ⟨hwf.1, by simp, ?_⟩
    intro x hx
    simp only [List.map_cons, List.map_nil, List.mem_singleton]
    intro hc
    obtain ⟨t, ht, hid⟩ := List.mem_map.mp hx
    have := hwf.2 t ht
    subst hc
    omega
  · intro t ht
    rw [create_group_tabs b u gid hwf] at ht
    show t.id < b.nextTabId + 1
    rcases List.mem_append.mp ht with h | h
    · have := hwf.2 t h
      omega
    · rcases List.mem_cons.mp h with h | h
      · subst h
        exact Nat.lt_succ_self _
      · cases h

theorem tabsWF_create_remove (b : Browser) (u : String) (hwf : TabsWF b) :
    TabsWF (tabsRemove (tabsCreate b u).2 (tabsCreate b u).1.id) := by
  constructor
  · rw [create_remove_tabs b u hwf]
    exact hwf.1
  · intro t ht
    rw [create_remove_tabs b u hwf] at ht
    show t.id < b.nextTabId + 1
    have := hwf.2 t ht
    omega

/-- Full specification of the add-or-update loop: well-formedness is kept,
the fresh-id counter only grows, `processedUrls` collects exactly the URLs
that were found or whose created tab passed the PR-pattern guard, and the
tab list grows by exactly the admitted creations — every one of them
grouped, fresh, matching the PR pattern, and settled on the resolve of a
desired URL absent from the snapshot; conversely every guarded-in desired
URL contributed such a tab. -/
theorem addTabsLoop_spec (resolve : String → String) (gid : Int)
    (snap : List String) :
    ∀ (D : List PullRequest) (b : Browser) (ps : List String), TabsWF b →
      TabsWF (addTabsLoop resolve gid snap D b ps).1 ∧
      b.nextTabId ≤ (addTabsLoop resolve gid snap D b ps).1.nextTabId ∧
      (addTabsLoop resolve gid snap D b ps).2 =
        ps ++ (D.filter (fun pr => snap.contains pr.url ||
          isPrUrl (resolve pr.url))).map (fun pr => pr.url) ∧
      ∃ news, (addTabsLoop resolve gid snap D b ps).1.tabs = b.tabs ++ news ∧
        (∀ t ∈ news, b.nextTabId ≤ t.id ∧ t.groupId = gid ∧ isPrUrl t.url = true ∧
          ∃ pr ∈ D, snap.contains pr.url = false ∧ t.url = resolve pr.url) ∧
        (∀ pr ∈ D, snap.contains pr.url = false → isPrUrl (resolve pr.url) = true →
          ∃ t ∈ news, t.url = resolve pr.url) := by
  intro D
  induction D with
  | nil =>
    intro b ps hwf
    refine ⟨hwf, Nat.le_refl _, by simp [addTabsLoop], [],
      by simp [addTabsLoop], ?_, ?_⟩
    · intro t ht
      cases ht
    · intro pr hpr
      cases hpr
  | cons pr rest ih =>
    intro b ps hwf
    by_cases hmem : snap.contains pr.url = true
    · have hstep : addTabsLoop resolve gid snap (pr :: rest) b ps =
          addTabsLoop resolve gid snap rest b (ps ++ [pr.url]) := by
        rw [addTabsLoop]
        rw [if_pos hmem]
      rw [hstep]
      obtain ⟨hwf', hle, hps, news, htabs, hnews, hcover⟩ :=
        ih b (ps ++ [pr.url]) hwf
      refine ⟨hwf', hle, ?_, news, htabs, ?_, ?_⟩
      · rw [hps, List.filter_cons_of_pos (by rw [hmem]; rfl), List.map_cons,
          List.append_assoc]
        rfl
      · intro t ht
        obtain ⟨h1, h2, h3, pr', hpr', h4, h5⟩ := hnews t ht
        exact ⟨h1, h2, h3, pr', List.mem_cons_of_mem pr hpr', h4, h5⟩
      · intro pr' hpr' hc hurl
        rcases List.mem_cons.mp hpr' with h | h
        · subst h
          rw [hmem] at hc
          cases hc
        · exact hcover pr' h hc hurl
    · have hmem' : snap.contains pr.url = false := by
        cases hx : snap.contains pr.url
        · rfl
        · exact absurd hx hmem
      by_cases hurl : isPrUrl (resolve pr.url) = true
      · have hstep : addTabsLoop resolve gid snap (pr :: rest) b ps =
            addTabsLoop resolve gid snap rest
              (tabsGroupOne (tabsCreate b (resolve pr.url)).2
                (tabsCreate b (resolve pr.url)).1.id gid) (ps ++ [pr.url]) := by
          rw [addTabsLoop]
          rw [if_neg (by rw [hmem']; simp), if_pos hurl]
        rw [hstep]
        have hwfmid := tabsWF_create_group b (resolve pr.url) gid hwf
        obtain ⟨hwf', hle, hps, news', htabs, hnews, hcover⟩ :=
          ih (tabsGroupOne (tabsCreate b (resolve pr.url)).2
            (tabsCreate b (resolve pr.url)).1.id gid) (ps ++ [pr.url]) hwfmid
      
        refine ⟨hwf', ?_, ?_, (⟨b.nextTabId, resolve pr.url, gid⟩ : Tab) :: news',
          ?_, ?_, ?_⟩
        · calc b.nextTabId ≤ b.nextTabId + 1 := Nat.le_succ _
            _ ≤ _ := hle
        · rw [hps, List.filter_cons_of_pos (by rw [hurl]; simp), List.map_cons,
            List.append_assoc]
          rfl
        · rw [htabs, create_group_tabs b (resolve pr.url) gid hwf,
            List.append_assoc]
          rfl
        · intro t ht
          rcases List.mem_cons.mp ht with h | h
          · subst h
            exact ⟨Nat.le_refl _, rfl, hurl, pr, List.mem_cons_self pr rest,
              hmem', rfl⟩
          · obtain ⟨h1, h2, h3, pr', hpr', h4, h5⟩ := hnews t h
            refine ⟨?_, h2, h3, pr', List.mem_cons_of_mem pr hpr', h4, h5⟩
            calc b.nextTabId ≤ b.nextTabId + 1 := Nat.le_succ _
              _ ≤ t.id := h1
        · intro pr' hpr' hc hurl'
          rcases List.mem_cons.mp hpr' with h | h
          · subst h
            exact ⟨⟨b.nextTabId, resolve pr'.url, gid⟩,
              List.mem_cons_self _ news', rfl⟩
          · obtain ⟨t, ht, hu⟩ := hcover pr' h hc hurl'
            exact ⟨t, List.mem_cons_of_mem _ ht, hu⟩
      · have hurl' : isPrUrl (resolve pr.url) = false := by
          cases hx : isPrUrl (resolve pr.url)
          · rfl
          · exact absurd hx hurl
        have hstep : addTabsLoop resolve gid snap (pr :: rest) b ps =
            addTabsLoop resolve gid snap rest
              (tabsRemove (tabsCreate b (resolve pr.url)).2
                (tabsCreate b (resolve pr.url)).1.id) ps := by
          rw [addTabsLoop]
          rw [if_neg (by rw [hmem']; simp), if_neg (by rw [hurl']; simp)]
        rw [hstep]
        have hwfmid := tabsWF_create_remove b (resolve pr.url) hwf
        obtain ⟨hwf', hle, hps, news', htabs, hnews, hcover⟩ :=
          ih (tabsRemove (tabsCreate b (resolve pr.url)).2
            (tabsCreate b (resolve pr.url)).1.id) ps hwfmid
        refine ⟨hwf', ?_, ?_, news', ?_, ?_, ?_⟩
        · calc b.nextTabId ≤ b.nextTabId + 1 := Nat.le_succ _
            _ ≤ _ := hle
        · rw [hps, List.filter_cons_of_neg (by rw [hmem', hurl']; simp)]
        · rw [htabs, create_remove_tabs b (resolve pr.url) hwf]
        · intro t ht
          obtain ⟨h1, h2, h3, pr', hpr', h4, h5⟩ := hnews t ht
          refine ⟨?_, h2, h3, pr', List.mem_cons_of_mem pr hpr', h4, h5⟩
          calc b.nextTabId ≤ b.nextTabId + 1 := Nat.le_succ _
            _ ≤ t.id := h1
        · intro pr' hpr' hc hurl2
          rcases List.mem_cons.mp hpr' with h | h
          · subst h
            rw [hurl'] at hurl2
            cases hurl2
          · exact hcover pr' h hc hurl2

/-- Surviving a removal keeps you a member of the original tab list. -/
theorem removeTabs_mem (b : Browser) (ts : List Tab) :
    ∀ t ∈ (removeTabs b ts).tabs, t ∈ b.tabs := by
  intro t ht
  rw [removeTabs_tabs] at ht
  exact (List.mem_filter.mp ht).1

/-- The absorb step only patches group memberships. -/
theorem absorbStrays_tabs (b : Browser) (gid : Int) (us : List String) :
    (absorbStrays b gid us).tabs = b.tabs.map (fun t =>
      if (b.tabs.filter (fun s => s.groupId == -1 && !(s.url == "") &&
            us.contains s.url)).any (fun s => s.id == t.id)
        then { t with groupId := gid } else t) := by
  show ((b.tabs.filter (fun s => s.groupId == -1 && !(s.url == "") &&
      us.contains s.url)).foldl (fun acc t => tabsGroupOne acc t.id gid) b).tabs = _
  exact foldl_groupOne_tabs gid _ b

/-- Every tab after the absorb step keeps the id and URL of a pre-existing
tab. -/
theorem absorbStrays_mem (b : Browser) (gid : Int) (us : List String) :
    ∀ t ∈ (absorbStrays b gid us).tabs,
      ∃ s ∈ b.tabs, t.id = s.id ∧ t.url = s.url := by
  intro t ht
  rw [absorbStrays_tabs] at ht
  obtain ⟨s, hsm, hst⟩ := List.mem_map.mp ht
  refine ⟨s, hsm, ?_⟩
  rw [← hst]
  split <;> exact ⟨rfl, rfl⟩

theorem foldl_groupOne_nextTabId (gid : Int) : ∀ (l : List Tab) (b : Browser),
    (l.foldl (fun acc t => tabsGroupOne acc t.id gid) b).nextTabId = b.nextTabId := by
  intro l
  induction l with
  | nil => intro b; rfl
  | cons s rest ih =>
    intro b
    show (rest.foldl (fun acc t => tabsGroupOne acc t.id gid)
      (tabsGroupOne b s.id gid)).nextTabId = _
    rw [ih]
    rfl

theorem absorbStrays_nextTabId (b : Browser) (gid : Int) (us : List String) :
    (absorbStrays b gid us).nextTabId = b.nextTabId := by
  show ((b.tabs.filter (fun s => s.groupId == -1 && !(s.url == "") &&
      us.contains s.url)).foldl (fun acc t => tabsGroupOne acc t.id gid) b).nextTabId = _
  exact foldl_groupOne_nextTabId gid _ b

/-- The absorb step keeps the tab list well-formed. -/
theorem absorbStrays_wf (b : Browser) (gid : Int) (us : List String)
    (hwf : TabsWF b) : TabsWF (absorbStrays b gid us) := by
  constructor
  · rw [absorbStrays_tabs, List.map_map]
    have hm : b.tabs.map ((fun t : Tab => t.id) ∘ (fun t =>
        if (b.tabs.filter (fun s => s.groupId == -1 && !(s.url == "") &&
              us.contains s.url)).any (fun s => s.id == t.id)
          then { t with groupId := gid } else t)) = b.tabs.map (fun t => t.id) := by
      apply List.map_congr_left
      intro t _
      show (if _ then ({ t with groupId := gid } : Tab) else t).id = t.id
      split <;> rfl
    rw [hm]
    exact hwf.1
  · intro t ht
    rw [absorbStrays_nextTabId]
    obtain ⟨s, hsm, hid, _⟩ := absorbStrays_mem b gid us t ht
    rw [hid]
    exact hwf.2 s hsm

/-- Every tab surviving the non-empty step keeps a pre-existing id and URL
or is the new `about:blank` placeholder. -/
theorem ensure_tabs_mem (b4 : Browser) (gid : Int) :
    ∀ t ∈ (ensurePlaceholder b4 gid).1.tabs,
      (∃ s ∈ b4.tabs, t.id = s.id ∧ t.url = s.url) ∨ t.url = "about:blank" := by
  unfold ensurePlaceholder
  by_cases hemp : (tabsQueryGroup b4 gid).isEmpty
  · rw [if_pos hemp]
    dsimp only
    intro t ht
    have ht' : t ∈ (b4.tabs ++ [(⟨b4.nextTabId, "about:blank", -1⟩ : Tab)]).map
        (fun s => if s.id == b4.nextTabId then { s with groupId := gid } else s) := ht
    obtain ⟨s, hsm, hst⟩ := List.mem_map.mp ht'
    rcases List.mem_append.mp hsm with hL | hR
    · left
      refine ⟨s, hL, ?_⟩
      rw [← hst]
      split <;> exact ⟨rfl, rfl⟩
    · right
      have hs : s = ⟨b4.nextTabId, "about:blank", -1⟩ := by simpa using hR
      subst hs
      rw [← hst]
      split <;> rfl
  · rw [if_neg hemp]
    intro t ht
    exact Or.inl ⟨t, ht, rfl, rfl⟩

/-- `processedUrls` after the add-or-update loop: the initial list followed
by the URLs of the desired items that were found in the snapshot or whose
created tab passed the PR-pattern guard. -/
theorem addTabsLoop_processed (resolve : String → String) (gid : Int)
    (snap : List String) : ∀ (D : List PullRequest) (b : Browser) (ps : List String),
    (addTabsLoop resolve gid snap D b ps).2 =
      ps ++ (D.filter (fun pr => snap.contains pr.url ||
        isPrUrl (resolve pr.url))).map (fun pr => pr.url) := by
  intro D
  induction D with
  | nil =>
    intro b ps
    simp [addTabsLoop]
  | cons pr rest ih =>
    intro b ps
    by_cases hmem : snap.contains pr.url = true
    · rw [addTabsLoop, if_pos hmem, ih, List.filter_cons_of_pos (by rw [hmem]; rfl),
        List.map_cons, List.append_assoc]
      rfl
    · have hmem' : snap.contains pr.url = false := by simpa using hmem
      by_cases hurl : isPrUrl (resolve pr.url) = true
      · rw [addTabsLoop, if_neg (by rw [hmem']; simp), if_pos hurl, ih,
          List.filter_cons_of_pos (by rw [hurl]; simp), List.map_cons,
          List.append_assoc]
        rfl
      · have hurl' : isPrUrl (resolve pr.url) = false := by simpa using hurl
        rw [addTabsLoop, if_neg (by rw [hmem']; simp), if_neg (by rw [hurl']; simp),
          ih, List.filter_cons_of_neg (by rw [hmem', hurl']; simp)]

/-- After the add-or-update loop over the absorbed browser, every tab is
either pre-existing (id below the old fresh-id counter) or matches the PR
pattern. -/
theorem addTabsLoop_mem_absorb (resolve : String → String) (gid : Int)
    (D : List PullRequest) (b : Browser) (us : List String) (snap : List String)
    (hwf : TabsWF b) :
    ∀ s ∈ (addTabsLoop resolve gid snap D (absorbStrays b gid us) []).1.tabs,
      s.id < b.nextTabId ∨ isPrUrl s.url = true := by
  intro s hs
  have hwf1 := absorbStrays_wf b gid us hwf
  obtain ⟨_, _, _, news, htabs, hnews, _⟩ :=
    addTabsLoop_spec resolve gid snap D (absorbStrays b gid us) [] hwf1
  rw [htabs] at hs
  rcases List.mem_append.mp hs with hL | hR
  · obtain ⟨o, hom, hid, _⟩ := absorbStrays_mem b gid us s hL
    left
    rw [hid]
    exact hwf.2 o hom
  · right
    exact (hnews s hR).2.2.1

/-- After the mutation phases of a round, every tab is pre-existing, the
placeholder, or matches the PR pattern: no off-pattern creation of the
round survives. -/
theorem syncPhases_tabs_mem (resolve : String → String) (gid : Int)
    (D : List PullRequest) (b : Browser) (hwf : TabsWF b) :
    ∀ t ∈ (syncPhases resolve gid D b).1.tabs,
      t.id < b.nextTabId ∨ t.url = "about:blank" ∨ isPrUrl t.url = true := by
  obtain ⟨b4, hb4, hmem4⟩ : ∃ b4, syncPhases resolve gid D b = ensurePlaceholder b4 gid ∧
      ∀ s ∈ b4.tabs, s.id < b.nextTabId ∨ isPrUrl s.url = true := by
    refine ⟨_, rfl, ?_⟩
    intro s hs
    by_cases hD : 0 < D.length
    · rw [if_pos hD] at hs
      exact addTabsLoop_mem_absorb resolve gid D b _ _ hwf s
        (removeTabs_mem _ _ s (removeTabs_mem _ _ s hs))
    · rw [if_neg hD] at hs
      exact addTabsLoop_mem_absorb resolve gid D b _ _ hwf s
        (removeTabs_mem _ _ s hs)
  intro t ht
  rw [hb4] at ht
  rcases ensure_tabs_mem b4 gid t ht with ⟨s, hsm, hid, hurl⟩ | hbl
  · rcases hmem4 s hsm with h | h
    · left
      rw [hid]
      exact h
    · right; right
      rw [hurl]
      exact h
  · right; left
    exact hbl

/-- The transient title written by `titlePolicy` when the group is
collapsed, the count grew, and a base title is stored. -/
theorem titlePolicy_title (gid : Int) (dLen : Nat) (prev : Int)
    (st : HandlerState) (b : Browser) (tl : TimerLog) (g : TabGroup)
    (hget : tabGroupsGet b gid = some g) (hcol : g.collapsed = true)
    (hn : 0 < (dLen : Int) - prev) (hbt : (st.baseTitle == "") = false) :
    (tabGroupsGet (titlePolicy gid dLen prev st b tl).b gid).map
        (fun x => x.title) =
      some (st.baseTitle ++ " (" ++ toString ((dLen : Int) - prev) ++ " new)") := by
  have hid : g.id = gid := by
    have hg' : b.groups.find? (fun x => x.id == gid) = some g := hget
    simpa using List.find?_some hg'
  have hb : (titlePolicy gid dLen prev st b tl).b =
      tabGroupsUpdate b gid (fun g' =>
        { g' with title := st.baseTitle ++ " (" ++
            toString ((dLen : Int) - prev) ++ " new)" }) := by
    unfold titlePolicy
    rw [hget]
    dsimp only
    rw [hcol, hbt]
    rw [if_pos (by simp [hn])]
  rw [hb, tabGroupsGet_update b gid gid (fun g' =>
    { g' with title := st.baseTitle ++ " (" ++
        toString ((dLen : Int) - prev) ++ " new)" }) (fun g' => rfl), hget]
  simp [hid]

/-- Group 7 (collapsed, empty) with base title "PRs". -/
def brEmpty7c : Browser := ⟨[], [⟨7, "PRs", "blue", true⟩], 1, 8⟩

/-- C5 (amended).  For the current grouped-tabs `syncTabs` on a live,
well-formed container: the round succeeds; every tab of the group that was
created during the round (id at or above the old fresh-id counter) and is
not the `about:blank` placeholder matches the PR pattern — so a desired
item whose created tab settles on an off-pattern URL is removed rather
than admitted and is absent from the final group; such an item's URL is
also never marked processed by the add-or-update loop (it is neither kept
nor created); but the "(N new)" title count is computed as
`pullRequests.length - previousPrCount` before any discards, so when the
group is collapsed, the count grew and a base title is stored, the written
count includes the discarded items. -/
theorem c5_amended_redirect_guard (resolve : String → String) (gid : Int)
    (D : List PullRequest) (prev : Int) (st : HandlerState) (b : Browser)
    (tl : TimerLog) (g0 : TabGroup) (hwf : TabsWF b)
    (hg : tabGroupsGet b gid = some g0) :
    (syncTabs resolve gid D prev st b tl).ok = true ∧
    (∀ t ∈ tabsQueryGroup (syncTabs resolve gid D prev st b tl).b gid,
      b.nextTabId ≤ t.id → ¬(t.url = "about:blank") → isPrUrl t.url = true) ∧
    (∀ u : String,
      (((tabsQueryGroup (absorbStrays b gid (D.map (fun pr => pr.url))) gid).map
          (fun t => t.url)).contains u) = false →
      isPrUrl (resolve u) = false →
      ¬ u ∈ (addTabsLoop resolve gid
          ((tabsQueryGroup (absorbStrays b gid (D.map (fun pr => pr.url))) gid).map
            (fun t => t.url))
          D (absorbStrays b gid (D.map (fun pr => pr.url))) []).2) ∧
    (g0.collapsed = true → prev < (D.length : Int) → ¬(st.baseTitle = "") →
      (tabGroupsGet (syncTabs resolve gid D prev st b tl).b gid).map
          (fun g => g.title) =
        some (st.baseTitle ++ " (" ++ toString ((D.length : Int) - prev) ++
          " new)")) := by
  refine ⟨syncTabs_ok resolve gid D prev st b tl g0 hg, ?_, ?_, ?_⟩
  · intro t ht hge hbl
    rw [syncTabs_query resolve gid D prev st b tl g0 hg, syncPhases_snd] at ht
    have ht' : t ∈ (syncPhases resolve gid D b).1.tabs := (List.mem_filter.mp ht).1
    rcases syncPhases_tabs_mem resolve gid D b hwf t ht' with h | h | h
    · exact absurd hge (by omega)
    · exact absurd h hbl
    · exact h
  · intro u hsnap hres hmem
    rw [addTabsLoop_processed] at hmem
    rw [List.nil_append] at hmem
    obtain ⟨pr, hprf, hpru⟩ := List.mem_map.mp hmem
    have hpred := (List.mem_filter.mp hprf).2
    rw [hpru] at hpred
    rw [hsnap, hres] at hpred
    cases hpred
  · intro hcol hprev hbt
    have heq := syncTabs_eq_of_live resolve gid D prev st b tl g0 hg
    have hget1 : tabGroupsGet (syncPhases resolve gid D b).1 gid = some g0 := by
      rw [tabGroupsGet_congr b _ gid (syncPhases_groups resolve gid D b)]
      exact hg
    have hid : g0.id = gid := by
      have hg' : b.groups.find? (fun g => g.id == gid) = some g0 := hg
      simpa using List.find?_some hg'
    have hn : 0 < (D.length : Int) - prev := by omega
    have hbt' : (st.baseTitle == "") = false := by
      rw [beq_eq_false_iff_ne]
      exact hbt
    by_cases hcc : collapseCheck (syncPhases resolve gid D b).2 = true
    · rw [heq, if_pos hcc]
      have hget2 : tabGroupsGet (tabGroupsUpdate (syncPhases resolve gid D b).1 gid
          (fun g => { g with collapsed := true })) gid =
          some { g0 with collapsed := true } := by
        rw [tabGroupsGet_update _ gid gid (fun g => { g with collapsed := true })
          (fun g => rfl), hget1]
        simp [hid]
      exact titlePolicy_title gid D.length prev _ _ tl { g0 with collapsed := true }
        hget2 rfl hn hbt'
    · rw [heq, if_neg hcc]
      exact titlePolicy_title gid D.length prev _ _ tl g0 hget1 hcol hn hbt'

/-- Witness for C5 (amended): an empty collapsed group, one desired item
whose creation redirects to the login page — the loop marks nothing
processed for that URL, only placeholder-or-PR-pattern tabs remain, and
yet the title becomes "PRs (1 new)". -/
theorem c5_amended_redirect_guard_witness :
    TabsWF brEmpty7c ∧
    tabGroupsGet brEmpty7c 7 = some (⟨7, "PRs", "blue", true⟩ : TabGroup) ∧
    ((syncTabs resolveLogin 7 [prGh 1] 0 hstPending brEmpty7c tlog1).ok = true ∧
     (∀ t ∈ tabsQueryGroup (syncTabs resolveLogin 7 [prGh 1] 0 hstPending brEmpty7c
          tlog1).b 7,
        brEmpty7c.nextTabId ≤ t.id → ¬(t.url = "about:blank") →
          isPrUrl t.url = true) ∧
     (∀ u : String,
        (((tabsQueryGroup (absorbStrays brEmpty7c 7
              ([prGh 1].map (fun pr => pr.url))) 7).map
            (fun t => t.url)).contains u) = false →
        isPrUrl (resolveLogin u) = false →
        ¬ u ∈ (addTabsLoop resolveLogin 7
            ((tabsQueryGroup (absorbStrays brEmpty7c 7
                ([prGh 1].map (fun pr => pr.url))) 7).map (fun t => t.url))
            [prGh 1] (absorbStrays brEmpty7c 7
              ([prGh 1].map (fun pr => pr.url))) []).2) ∧
     ((⟨7, "PRs", "blue", true⟩ : TabGroup).collapsed = true →
        (0 : Int) < (([prGh 1].length : Nat) : Int) →
        ¬(hstPending.baseTitle = "") →
        (tabGroupsGet (syncTabs resolveLogin 7 [prGh 1] 0 hstPending brEmpty7c
            tlog1).b 7).map (fun g => g.title) =
          some (hstPending.baseTitle ++ " (" ++
            toString ((([prGh 1].length : Nat) : Int) - 0) ++ " new)"))) :=
  ⟨by decide, by decide,
   c5_amended_redirect_guard resolveLogin 7 [prGh 1] 0 hstPending brEmpty7c tlog1
     ⟨7, "PRs", "blue", true⟩ (by decide) (by decide)⟩

/-- Full specification of the per-PR bookmark loop: `processedUrls`
collects EVERY desired URL (found or created); the fresh-id counter only
grows; every resulting child keeps the id and URL of an initial child or
is a creation carrying a desired URL and a fresh id; every initial child
keeps a counterpart with its id and URL; and every desired item has a
resulting child holding its URL — matched to an `existing` child by id, or
freshly created.  `hexb` records that every `existing` child has a
counterpart (by id and URL) in the threaded list. -/
theorem syncBookmarksLoop_spec (format : String) (existing : List Bookmark) :
    ∀ (D : List PullRequest) (bms : List Bookmark) (n : Nat) (ps : List String),
      (∀ o ∈ existing, ∃ x ∈ bms, x.id = o.id ∧ x.url = o.url) →
      (syncBookmarksLoop format existing D bms n ps).2.2 =
        ps ++ D.map (fun pr => pr.url) ∧
      n ≤ (syncBookmarksLoop format existing D bms n ps).2.1 ∧
      (∀ bm ∈ (syncBookmarksLoop format existing D bms n ps).1,
        (∃ o ∈ bms, bm.id = o.id ∧ bm.url = o.url) ∨
        (∃ pr ∈ D, bm.url = some pr.url ∧ n ≤ bm.id)) ∧
      (∀ o ∈ bms, ∃ bm ∈ (syncBookmarksLoop format existing D bms n ps).1,
        bm.id = o.id ∧ bm.url = o.url) ∧
      (∀ pr ∈ D, ∃ bm ∈ (syncBookmarksLoop format existing D bms n ps).1,
        bm.url = some pr.url ∧
          ((∃ o ∈ existing, o.url = some pr.url ∧ bm.id = o.id) ∨ n ≤ bm.id)) := by
  intro D
  induction D with
  | nil =>
    intro bms n ps hexb
    refine ⟨by simp [syncBookmarksLoop], Nat.le_refl _, ?_, ?_, ?_⟩
    · intro bm hbm
      exact Or.inl ⟨bm, hbm, rfl, rfl⟩
    · intro o ho
      exact ⟨o, ho, rfl, rfl⟩
    · intro pr hpr
      cases hpr
  | cons pr rest ih =>
    intro bms n ps hexb
    cases hlk : lookupLastByUrl existing pr.url with
    | some bm0 =>
      have hbm0mem : bm0 ∈ existing := by
        have h1 := List.mem_of_find?_eq_some hlk
        exact (List.mem_reverse).mp h1
      have hbm0url : bm0.url = some pr.url := by
        have h2 := List.find?_some hlk
        simpa using h2
      have hstep : syncBookmarksLoop format existing (pr :: rest) bms n ps =
          syncBookmarksLoop format existing rest
            (if !(bm0.title == formatPrName format pr) then
              bms.map (fun x => if x.id == bm0.id then
                { x with title := formatPrName format pr } else x)
            else bms) n (ps ++ [pr.url]) := by
        rw [syncBookmarksLoop]
        rw [hlk]
      have hexb1 : ∀ o ∈ existing,
          ∃ x ∈ (if !(bm0.title == formatPrName format pr) then
              bms.map (fun x => if x.id == bm0.id then
                { x with title := formatPrName format pr } else x)
            else bms), x.id = o.id ∧ x.url = o.url := by
        intro o ho
        obtain ⟨x, hx, hxi, hxu⟩ := hexb o ho
        split
        · refine ⟨(fun x => if x.id == bm0.id then
              { x with title := formatPrName format pr } else x) x,
            List.mem_map_of_mem _ hx, ?_⟩
          constructor
          · show (if x.id == bm0.id then
              { x with title := formatPrName format pr } else x).id = o.id
            split <;> exact hxi
          · show (if x.id == bm0.id then
              { x with title := formatPrName format pr } else x).url = o.url
            split <;> exact hxu
        · exact ⟨x, hx, hxi, hxu⟩
      obtain ⟨hps, hle, horig, hkeep, hcover⟩ := ih _ n (ps ++ [pr.url]) hexb1
      rw [hstep]
      refine ⟨?_, hle, ?_, ?_, ?_⟩
      · rw [hps, List.map_cons, List.append_assoc]
        rfl
      · intro bm hbm
        rcases horig bm hbm with ⟨o, ho, hoi, hou⟩ | ⟨pr', hpr', h1, h2⟩
        · revert ho
          split
          · intro ho
            obtain ⟨o0, ho0, ho0f⟩ := List.mem_map.mp ho
            left
            refine ⟨o0, ho0, ?_, ?_⟩
            · rw [hoi, ← ho0f]
              split <;> rfl
            · rw [hou, ← ho0f]
              split <;> rfl
          · intro ho
            exact Or.inl ⟨o, ho, hoi, hou⟩
        · exact Or.inr ⟨pr', List.mem_cons_of_mem pr hpr', h1, h2⟩
      · intro o ho
        have hm : ∃ x ∈ (if !(bm0.title == formatPrName format pr) then
            bms.map (fun x => if x.id == bm0.id then
              { x with title := formatPrName format pr } else x)
          else bms), x.id = o.id ∧ x.url = o.url := by
          split
          · refine ⟨(fun x => if x.id == bm0.id then
                { x with title := formatPrName format pr } else x) o,
              List.mem_map_of_mem _ ho, ?_⟩
            constructor
            · show (if o.id == bm0.id then
                { o with title := formatPrName format pr } else o).id = o.id
              split <;> rfl
            · show (if o.id == bm0.id then
                { o with title := formatPrName format pr } else o).url = o.url
              split <;> rfl
          · exact ⟨o, ho, rfl, rfl⟩
        obtain ⟨x, hx, hxi, hxu⟩ := hm
        obtain ⟨bm, hbm, hbi, hbu⟩ := hkeep x hx
        exact ⟨bm, hbm, by rw [hbi, hxi], by rw [hbu, hxu]⟩
      · intro pr' hpr'
        rcases List.mem_cons.mp hpr' with h | h
        · subst h
          obtain ⟨x, hx, hxi, hxu⟩ := hexb1 bm0 hbm0mem
          obtain ⟨bm, hbm, hbi, hbu⟩ := hkeep x hx
          refine ⟨bm, hbm, by rw [hbu, hxu, hbm0url], Or.inl ⟨bm0, hbm0mem,
            hbm0url, by rw [hbi, hxi]⟩⟩
        · exact hcover pr' h
    | none =>
      have hstep : syncBookmarksLoop format existing (pr :: rest) bms n ps =
          syncBookmarksLoop format existing rest
            (bms ++ [⟨n, formatPrName format pr, some pr.url⟩]) (n + 1)
            (ps ++ [pr.url]) := by
        rw [syncBookmarksLoop]
        rw [hlk]
      have hexb1 : ∀ o ∈ existing,
          ∃ x ∈ bms ++ [(⟨n, formatPrName format pr, some pr.url⟩ : Bookmark)],
            x.id = o.id ∧ x.url = o.url := by
        intro o ho
        obtain ⟨x, hx, hxi, hxu⟩ := hexb o ho
        exact ⟨x, List.mem_append_left _ hx, hxi, hxu⟩
      obtain ⟨hps, hle, horig, hkeep, hcover⟩ := ih _ (n + 1) (ps ++ [pr.url]) hexb1
      rw [hstep]
      refine ⟨?_, ?_, ?_, ?_, ?_⟩
      · rw [hps, List.map_cons, List.append_assoc]
        rfl
      · calc n ≤ n + 1 := Nat.le_succ _
          _ ≤ _ := hle
      · intro bm hbm
        rcases horig bm hbm with ⟨o, ho, hoi, hou⟩ | ⟨pr', hpr', h1, h2⟩
        · rcases List.mem_append.mp ho with hL | hR
          · exact Or.inl ⟨o, hL, hoi, hou⟩
          · have ho' : o = ⟨n, formatPrName format pr, some pr.url⟩ := by
              simpa using hR
            subst ho'
            exact Or.inr ⟨pr, List.mem_cons_self pr rest, hou, by rw [hoi]⟩
        · refine Or.inr ⟨pr', List.mem_cons_of_mem pr hpr', h1, ?_⟩
          calc n ≤ n + 1 := Nat.le_succ _
            _ ≤ bm.id := h2
      · intro o ho
        exact hkeep o (List.mem_append_left _ ho)
      · intro pr' hpr'
        rcases List.mem_cons.mp hpr' with h | h
        · subst h
          obtain ⟨bm, hbm, hbi, hbu⟩ :=
            hkeep ⟨n, formatPrName format pr', some pr'.url⟩
              (List.mem_append_right _ (List.mem_singleton_self _))
          exact ⟨bm, hbm, by rw [hbu], Or.inr (by rw [hbi])⟩
        · obtain ⟨bm, hbm, hbu, hrest⟩ := hcover pr' h
          refine ⟨bm, hbm, hbu, ?_⟩
          rcases hrest with hO | hN
          · exact Or.inl hO
          · exact Or.inr (by
              calc n ≤ n + 1 := Nat.le_succ _
                _ ≤ bm.id := hN)

/-- The flat-folder reconciler `syncBookmarks` converges the folder's real
entry URL set to exactly the desired URL set, provided the folder's
children have distinct ids below the fresh-id supply. -/
theorem syncBookmarks_real_iff (format : String) (D : List PullRequest)
    (children : List Bookmark) (nid : Nat)
    (hnodup : (children.map (fun bm => bm.id)).Nodup)
    (hbound : ∀ bm ∈ children, bm.id < nid) :
    ∀ u, ¬(u = "") →
      ((∃ bm ∈ syncBookmarks format D children nid, bm.url = some u) ↔
       ∃ pr ∈ D, pr.url = u) := by
  obtain ⟨bms, nid2, procd, heq, hresult⟩ : ∃ bms nid2 procd,
      syncBookmarksLoop format children D children nid [] = (bms, nid2, procd) ∧
      syncBookmarks format D children nid = bms.filter (fun bm =>
        !((children.filter (fun o => urlTruthy o.url &&
            !(match o.url with
              | some v => procd.contains v
              | none => false))).any (fun r => r.id == bm.id))) :=
    ⟨_, _, _, rfl, rfl⟩
  have spec := syncBookmarksLoop_spec format children D children nid []
    (fun o ho => ⟨o, ho, rfl, rfl⟩)
  rw [heq] at spec
  dsimp only at spec
  obtain ⟨hps, hle, horig, hkeep, hcover⟩ := spec
  rw [List.nil_append] at hps
  intro u hu
  constructor
  · rintro ⟨bm, hbm, hbu⟩
    rw [hresult] at hbm
    have hbm' := List.mem_filter.mp hbm
    have hsurv : ∀ r ∈ children.filter (fun o => urlTruthy o.url &&
        !(match o.url with
          | some v => procd.contains v
          | none => false)), ¬ r.id = bm.id := by
      intro r hr hid
      have hany : (children.filter (fun o => urlTruthy o.url &&
          !(match o.url with
            | some v => procd.contains v
            | none => false))).any (fun r => r.id == bm.id) = true :=
        List.any_eq_true.mpr ⟨r, hr, by simp [hid]⟩
      have h2 := hbm'.2
      rw [hany] at h2
      cases h2
    rcases horig bm hbm'.1 with ⟨o, ho, hoi, hou⟩ | ⟨pr, hpr, h1, _⟩
    · by_cases hctn : procd.contains u = true
      · have hmem : u ∈ procd := List.elem_iff.mp hctn
        rw [hps] at hmem
        obtain ⟨pr, hpr, hpru⟩ := List.mem_map.mp hmem
        exact ⟨pr, hpr, hpru⟩
      · exfalso
        have hctn' : procd.contains u = false := by simpa using hctn
        have hou' : o.url = some u := by rw [← hou, hbu]
        have hoTR : o ∈ children.filter (fun o => urlTruthy o.url &&
            !(match o.url with
              | some v => procd.contains v
              | none => false)) := by
          rw [List.mem_filter]
          refine ⟨ho, ?_⟩
          rw [hou']
          simp [urlTruthy, hu]
          exact fun hmm => hctn (List.elem_iff.mpr hmm)
        exact hsurv o hoTR (by rw [hoi])
    · exact ⟨pr, hpr, Option.some.inj (by rw [← h1, hbu])⟩
  · rintro ⟨pr, hpr, hpru⟩
    obtain ⟨bm, hbm, hbu, hcase⟩ := hcover pr hpr
    refine ⟨bm, ?_, by rw [hbu, hpru]⟩
    rw [hresult, List.mem_filter]
    refine ⟨hbm, ?_⟩
    have hany : (children.filter (fun o => urlTruthy o.url &&
        !(match o.url with
          | some v => procd.contains v
          | none => false))).any (fun r => r.id == bm.id) = false := by
      rw [List.any_eq_false]
      intro r hr hbeq
      have hrmem := (List.mem_filter.mp hr).1
      have hrpred := (List.mem_filter.mp hr).2
      have hid : r.id = bm.id := by simpa using hbeq
      rcases hcase with ⟨o, ho, hourl, hbio⟩ | hge
      · have hro : r = o :=
          List.inj_on_of_nodup_map hnodup hrmem ho (by rw [hid, hbio])
        subst hro
        rw [hourl] at hrpred
        have hmem : pr.url ∈ procd := by
          rw [hps]
          exact List.mem_map_of_mem _ hpr
        simp at hrpred
        exact hrpred.2 hmem
      · have := hbound r hrmem
        omega
    rw [hany]
    rfl

/-- A tab none of whose ids occur in the removal list survives
`removeTabs`. -/
theorem mem_removeTabs_of_not_hit (b : Browser) (ts : List Tab) (t : Tab)
    (ht : t ∈ b.tabs) (hno : ∀ s ∈ ts, ¬ s.id = t.id) :
    t ∈ (removeTabs b ts).tabs := by
  rw [removeTabs_tabs, List.mem_filter]
  refine ⟨ht, ?_⟩
  have hany : ts.any (fun s => s.id == t.id) = false := by
    rw [List.any_eq_false]
    intro s hs hbeq
    exact hno s hs (by simpa using hbeq)
  rw [hany]
  rfl

/-- A survivor of `removeTabs` shares its id with nothing on the removal
list. -/
theorem removeTabs_no_hit (b : Browser) (ts : List Tab) (t : Tab)
    (ht : t ∈ (removeTabs b ts).tabs) : ∀ s ∈ ts, ¬ s.id = t.id := by
  rw [removeTabs_tabs, List.mem_filter] at ht
  intro s hs heq
  have hany : ts.any (fun s => s.id == t.id) = true :=
    List.any_eq_true.mpr ⟨s, hs, by simp [heq]⟩
  have h2 := ht.2
  rw [hany] at h2
  cases h2

/-- Every entry of the group after the non-empty step was already a group
entry or is the `about:blank` placeholder. -/
theorem ensure_query_sub (b4 : Browser) (gid : Int)
    (hb : ∀ t ∈ b4.tabs, t.id < b4.nextTabId) :
    ∀ t ∈ (ensurePlaceholder b4 gid).2,
      t ∈ tabsQueryGroup b4 gid ∨ t.url = "about:blank" := by
  unfold ensurePlaceholder
  by_cases hemp : (tabsQueryGroup b4 gid).isEmpty
  · rw [if_pos hemp]
    dsimp only
    intro t ht
    have ht' : t ∈ ((b4.tabs ++ [(⟨b4.nextTabId, "about:blank", -1⟩ : Tab)]).map
        (fun s => if s.id == b4.nextTabId then { s with groupId := gid } else s)).filter
        (fun s => s.groupId == gid) := ht
    have htm := (List.mem_filter.mp ht').1
    obtain ⟨s, hsm, hst⟩ := List.mem_map.mp htm
    rcases List.mem_append.mp hsm with hL | hR
    · left
      have hne : (s.id == b4.nextTabId) = false := by
        rw [beq_eq_false_iff_ne]
        have := hb s hL
        omega
      have hst' : s = t := by
        rw [← hst]
        simp [hne]
      rw [tabsQueryGroup, List.mem_filter]
      rw [hst'] at hL
      exact ⟨hL, (List.mem_filter.mp ht').2⟩
    · right
      have hs : s = ⟨b4.nextTabId, "about:blank", -1⟩ := by simpa using hR
      subst hs
      rw [← hst]
      split <;> rfl
  · rw [if_neg hemp]
    intro t ht
    exact Or.inl ht

/-- Every group entry survives the non-empty step. -/
theorem ensure_query_super (b4 : Browser) (gid : Int) :
    ∀ t ∈ tabsQueryGroup b4 gid, t ∈ (ensurePlaceholder b4 gid).2 := by
  unfold ensurePlaceholder
  by_cases hemp : (tabsQueryGroup b4 gid).isEmpty
  · rw [if_pos hemp]
    intro t ht
    rw [List.isEmpty_iff] at hemp
    rw [hemp] at ht
    cases ht
  · rw [if_neg hemp]
    intro t ht
    exact ht

/-- Convergence of the grouped-tabs reconciler: on a live, well-formed
container, when every desired URL matches the PR pattern and created tabs
settle on their requested URL, the set of real entry URLs of the group
after `syncTabs` equals exactly the desired URL set. -/
theorem syncTabs_real_iff (resolve : String → String) (gid : Int)
    (D : List PullRequest) (prev : Int) (st : HandlerState) (b : Browser)
    (tl : TimerLog) (g0 : TabGroup) (hwf : TabsWF b)
    (hg : tabGroupsGet b gid = some g0)
    (hpat : ∀ pr ∈ D, isPrUrl pr.url = true)
    (hres : ∀ pr ∈ D, resolve pr.url = pr.url) :
    ∀ u, realUrl u = true →
      (u ∈ (tabsQueryGroup (syncTabs resolve gid D prev st b tl).b gid).map
          (fun t => t.url) ↔ u ∈ D.map (fun pr => pr.url)) := by
  obtain ⟨B1, B2, PROC, TR, B3, B4, hB1, hstep, hTR, hB3, hB4, hphase⟩ :
      ∃ B1 B2 PROC TR B3 B4,
        B1 = absorbStrays b gid (D.map (fun pr => pr.url)) ∧
        addTabsLoop resolve gid ((tabsQueryGroup B1 gid).map (fun t => t.url))
          D B1 [] = (B2, PROC) ∧
        TR = (tabsQueryGroup B1 gid).filter (fun t => !(t.url == "") &&
          !(t.url == "about:blank") && !(PROC.contains t.url)) ∧
        B3 = removeTabs B2 TR ∧
        B4 = (if 0 < D.length then
            removeTabs B3 ((tabsQueryGroup B3 gid).filter
              (fun t => t.url == "about:blank"))
          else B3) ∧
        syncPhases resolve gid D b = ensurePlaceholder B4 gid :=
    ⟨_, _, _, _, _, _, rfl, rfl, rfl, rfl, rfl, rfl⟩
  have hwf1 : TabsWF B1 := by
    rw [hB1]
    exact absorbStrays_wf b gid _ hwf
  have hspec := addTabsLoop_spec resolve gid
    ((tabsQueryGroup B1 gid).map (fun t => t.url)) D B1 [] hwf1
  rw [hstep] at hspec
  dsimp only at hspec
  obtain ⟨hwf2, hle2, hps, news, htabs2, hnews, hcover⟩ := hspec
  have hinj2 : ∀ s ∈ B2.tabs, ∀ t ∈ B2.tabs, s.id = t.id → s = t :=
    fun s hs t ht h => List.inj_on_of_nodup_map hwf2.1 hs ht h
  have hsub3 : ∀ t ∈ B3.tabs, t ∈ B2.tabs := by
    rw [hB3]
    exact removeTabs_mem B2 TR
  have hsub4 : ∀ t ∈ B4.tabs, t ∈ B3.tabs := by
    rw [hB4]
    by_cases hD : 0 < D.length
    · rw [if_pos hD]
      exact removeTabs_mem _ _
    · rw [if_neg hD]
      intro t ht
      exact ht
  have hnext3 : B3.nextTabId = B2.nextTabId := by
    rw [hB3]
    exact removeTabs_nextTabId TR B2
  have hnext4 : B4.nextTabId = B3.nextTabId := by
    rw [hB4]
    by_cases hD : 0 < D.length
    · rw [if_pos hD]
      exact removeTabs_nextTabId _ _
    · rw [if_neg hD]
  have hbound4 : ∀ t ∈ B4.tabs, t.id < B4.nextTabId := by
    intro t ht
    rw [hnext4, hnext3]
    exact hwf2.2 t (hsub3 t (hsub4 t ht))
  have hnohitTR : ∀ t ∈ B3.tabs, ∀ s ∈ TR, ¬ s.id = t.id := by
    intro t ht
    rw [hB3] at ht
    exact removeTabs_no_hit B2 TR t ht
  have F2 : ∀ t ∈ tabsQueryGroup B4 gid, realUrl t.url = true →
      ∃ pr ∈ D, pr.url = t.url := by
    intro t ht hreal
    rw [tabsQueryGroup, List.mem_filter] at ht
    obtain ⟨ht4, hgid⟩ := ht
    have ht3 := hsub4 t ht4
    have ht2 := hsub3 t ht3
    rw [htabs2] at ht2
    rcases List.mem_append.mp ht2 with hmem1 | hmemN
    · have hsnapmem : t ∈ tabsQueryGroup B1 gid := by
        rw [tabsQueryGroup, List.mem_filter]
        exact ⟨hmem1, hgid⟩
      by_cases hctn : PROC.contains t.url = true
      · have hmemP : t.url ∈ PROC := List.elem_iff.mp hctn
        rw [hps, List.nil_append] at hmemP
        obtain ⟨pr, hprf, hpru⟩ := List.mem_map.mp hmemP
        exact ⟨pr, (List.mem_filter.mp hprf).1, hpru⟩
      · exfalso
        have hctn' : PROC.contains t.url = false := by simpa using hctn
        have htTR : t ∈ TR := by
          rw [hTR, List.mem_filter]
          refine ⟨hsnapmem, ?_⟩
          rw [realUrl, Bool.and_eq_true] at hreal
          rw [hreal.1, hreal.2, hctn']
          rfl
        exact hnohitTR t ht3 t htTR rfl
    · obtain ⟨_, _, _, pr, hprD, _, htu⟩ := hnews t hmemN
      refine ⟨pr, hprD, ?_⟩
      rw [htu, hres pr hprD]
  have F3 : ∀ pr ∈ D, realUrl pr.url = true →
      ∃ t ∈ tabsQueryGroup B4 gid, t.url = pr.url := by
    intro pr hpr hrealu
    by_cases hctn : ((tabsQueryGroup B1 gid).map (fun t => t.url)).contains
        pr.url = true
    · obtain ⟨s, hsQ, hsu⟩ := List.mem_map.mp (List.elem_iff.mp hctn)
      have hsQ' := hsQ
      rw [tabsQueryGroup, List.mem_filter] at hsQ'
      have hprP : pr.url ∈ PROC := by
        rw [hps, List.nil_append]
        refine List.mem_map_of_mem _ (List.mem_filter.mpr ⟨hpr, ?_⟩)
        rw [hctn]
        rfl
      have hs2 : s ∈ B2.tabs := by
        rw [htabs2]
        exact List.mem_append_left _ hsQ'.1
      have hsB3 : s ∈ B3.tabs := by
        rw [hB3]
        apply mem_removeTabs_of_not_hit B2 TR s hs2
        intro r hr hrid
        rw [hTR, List.mem_filter] at hr
        obtain ⟨hrQ, hrpred⟩ := hr
        have hrQ' := hrQ
        rw [tabsQueryGroup, List.mem_filter] at hrQ'
        have hr2 : r ∈ B2.tabs := by
          rw [htabs2]
          exact List.mem_append_left _ hrQ'.1
        have hrs : r = s := hinj2 r hr2 s hs2 hrid
        subst hrs
        rw [Bool.and_eq_true, Bool.and_eq_true] at hrpred
        have hnc := hrpred.2
        rw [hsu] at hnc
        have hc : PROC.contains pr.url = true := List.elem_iff.mpr hprP
        rw [hc] at hnc
        cases hnc
      have hsB4 : s ∈ B4.tabs := by
        rw [hB4]
        by_cases hD : 0 < D.length
        · rw [if_pos hD]
          apply mem_removeTabs_of_not_hit B3 _ s hsB3
          intro r hr hrid
          rw [List.mem_filter] at hr
          obtain ⟨hrQ3, hrbl⟩ := hr
          rw [tabsQueryGroup, List.mem_filter] at hrQ3
          have hr2 : r ∈ B2.tabs := hsub3 r hrQ3.1
          have hrs : r = s := hinj2 r hr2 s hs2 hrid
          subst hrs
          rw [hsu] at hrbl
          rw [realUrl, Bool.and_eq_true] at hrealu
          have h2 := hrealu.2
          rw [hrbl] at h2
          cases h2
        · rw [if_neg hD]
          exact hsB3
      refine ⟨s, ?_, hsu⟩
      rw [tabsQueryGroup, List.mem_filter]
      exact ⟨hsB4, hsQ'.2⟩
    · have hctn' : ((tabsQueryGroup B1 gid).map (fun t => t.url)).contains
          pr.url = false := by simpa using hctn
      have hguard : isPrUrl (resolve pr.url) = true := by
        rw [hres pr hpr]
        exact hpat pr hpr
      obtain ⟨tn, htnN, htnu⟩ := hcover pr hpr hctn' hguard
      obtain ⟨hge, hgidn, _, _⟩ := hnews tn htnN
      have htn2 : tn ∈ B2.tabs := by
        rw [htabs2]
        exact List.mem_append_right _ htnN
      have htnB3 : tn ∈ B3.tabs := by
        rw [hB3]
        apply mem_removeTabs_of_not_hit B2 TR tn htn2
        intro r hr hrid
        rw [hTR, List.mem_filter] at hr
        have hrQ' := hr.1
        rw [tabsQueryGroup, List.mem_filter] at hrQ'
        have := hwf1.2 r hrQ'.1
        omega
      have htnB4 : tn ∈ B4.tabs := by
        rw [hB4]
        by_cases hD : 0 < D.length
        · rw [if_pos hD]
          apply mem_removeTabs_of_not_hit B3 _ tn htnB3
          intro r hr hrid
          rw [List.mem_filter] at hr
          obtain ⟨hrQ3, hrbl⟩ := hr
          rw [tabsQueryGroup, List.mem_filter] at hrQ3
          have hr2 : r ∈ B2.tabs := hsub3 r hrQ3.1
          have hrs : r = tn := hinj2 r hr2 tn htn2 hrid
          subst hrs
          rw [htnu, hres pr hpr] at hrbl
          rw [realUrl, Bool.and_eq_true] at hrealu
          have h2 := hrealu.2
          rw [hrbl] at h2
          cases h2
        · rw [if_neg hD]
          exact htnB3
      refine ⟨tn, ?_, by rw [htnu, hres pr hpr]⟩
      rw [tabsQueryGroup, List.mem_filter]
      refine ⟨htnB4, ?_⟩
      rw [hgidn]
      simp
  intro u hreal
  have hquery : tabsQueryGroup (syncTabs resolve gid D prev st b tl).b gid =
      (syncPhases resolve gid D b).2 :=
    syncTabs_query resolve gid D prev st b tl g0 hg
  have hsnd : (syncPhases resolve gid D b).2 = (ensurePlaceholder B4 gid).2 := by
    rw [hphase]
  rw [hquery, hsnd]
  constructor
  · intro hmemu
    obtain ⟨t, ht, htu⟩ := List.mem_map.mp hmemu
    rcases ensure_query_sub B4 gid hbound4 t ht with hq | hbl
    · obtain ⟨pr, hpr, hpru⟩ := F2 t hq (by rw [htu]; exact hreal)
      exact List.mem_map.mpr ⟨pr, hpr, by rw [hpru, htu]⟩
    · exfalso
      have hub : u = "about:blank" := by rw [← htu, hbl]
      rw [hub] at hreal
      exact absurd hreal (by decide)
  · intro hmemu
    obtain ⟨pr, hpr, hpru⟩ := List.mem_map.mp hmemu
    obtain ⟨t, htq, htu⟩ := F3 pr hpr (by rw [hpru]; exact hreal)
    exact List.mem_map.mpr ⟨t, ensure_query_super B4 gid t htq, by rw [htu, hpru]⟩

/-- C1 (amended).  Set convergence of a successful reconcile.  Grouped
tabs: on a live, well-formed container, provided every desired URL matches
the PR pattern and created tabs settle on their requested URL, the call
succeeds and the set of real (non-empty, non-`about:blank`) entry URLs of
the group equals exactly the desired URL set.  Flat folder: provided the
folder's children have distinct ids below the fresh-id supply, the set of
non-empty entry URLs after `syncBookmarks` equals exactly the desired URL
set.  (As literally stated the claim fails — see the counterexample: the
redirect guard silently drops desired items that settle outside the PR
pattern.) -/
theorem c1_amended_set_convergence (resolve : String → String) (gid : Int)
    (D : List PullRequest) (prev : Int) (st : HandlerState) (b : Browser)
    (tl : TimerLog) (g0 : TabGroup) (format : String)
    (children : List Bookmark) (nid : Nat)
    (hwf : TabsWF b) (hg : tabGroupsGet b gid = some g0)
    (hpat : ∀ pr ∈ D, isPrUrl pr.url = true)
    (hres : ∀ pr ∈ D, resolve pr.url = pr.url)
    (hnodup : (children.map (fun bm => bm.id)).Nodup)
    (hbound : ∀ bm ∈ children, bm.id < nid) :
    ((syncTabs resolve gid D prev st b tl).ok = true ∧
     ∀ u, realUrl u = true →
       (u ∈ (tabsQueryGroup (syncTabs resolve gid D prev st b tl).b gid).map
           (fun t => t.url) ↔ u ∈ D.map (fun pr => pr.url))) ∧
    (∀ u, ¬(u = "") →
       ((∃ bm ∈ syncBookmarks format D children nid, bm.url = some u) ↔
        ∃ pr ∈ D, pr.url = u)) :=
  ⟨⟨syncTabs_ok resolve gid D prev st b tl g0 hg,
    syncTabs_real_iff resolve gid D prev st b tl g0 hwf hg hpat hres⟩,
   syncBookmarks_real_iff format D children nid hnodup hbound⟩

/-- Witness for C1 (amended): a collapsed group already holding five PR
tabs synced down to two desired items, and a one-bookmark folder, both
converge to exactly the desired URL sets. -/
theorem c1_amended_set_convergence_witness :
    (TabsWF brFivePr ∧
     tabGroupsGet brFivePr 7 = some (⟨7, "PRs", "blue", true⟩ : TabGroup) ∧
     (∀ pr ∈ [prGh 1, prGh 2], isPrUrl pr.url = true) ∧
     (∀ pr ∈ [prGh 1, prGh 2], resolveId pr.url = pr.url) ∧
     ([bmExisting].map (fun bm => bm.id)).Nodup ∧
     (∀ bm ∈ [bmExisting], bm.id < 1)) ∧
    (((syncTabs resolveId 7 [prGh 1, prGh 2] 0 hst0 brFivePr tlog0).ok = true ∧
      ∀ u, realUrl u = true →
        (u ∈ (tabsQueryGroup (syncTabs resolveId 7 [prGh 1, prGh 2] 0 hst0 brFivePr
            tlog0).b 7).map (fun t => t.url) ↔
         u ∈ [prGh 1, prGh 2].map (fun pr => pr.url))) ∧
     (∀ u, ¬(u = "") →
        ((∃ bm ∈ syncBookmarks "[%repository%] %name%" [prGh 1, prGh 2]
            [bmExisting] 1, bm.url = some u) ↔
         ∃ pr ∈ [prGh 1, prGh 2], pr.url = u))) :=
  ⟨⟨by decide, by decide, by decide, by decide, by decide, by decide⟩,
   c1_amended_set_convergence resolveId 7 [prGh 1, prGh 2] 0 hst0 brFivePr tlog0
     ⟨7, "PRs", "blue", true⟩ "[%repository%] %name%" [bmExisting] 1
     (by decide) (by decide) (by decide) (by decide) (by decide) (by decide)⟩
